import Mathlib

/-! Vikunja API: label rights, principal resolution, users, task comments and
the TickTick migration

A shallow embedding of `pkg/models/label_rights.go`, `pkg/user/user.go`,
`pkg/models/user_add_update.go`, `pkg/models/task_comments.go` and
`pkg/modules/migration/ticktick/ticktick.go`, with the namespace rights that
`pkg/models/namespace_test.go` exercises modelled from the specification.

Conventions of the embedding

* The package-level xorm engine `x` becomes an explicit `Engine` value that
  every function reading the database receives as its first argument.  Tables
  are lists of rows; the order of a list is the order in which the database
  hands rows back, so a query that fetches one row (`Get`, `Exist`) sees the
  first row of the list that satisfies its condition.
* A query may fail inside the engine (connection lost, malformed statement).
  That is the `err != nil` the Go code tests after each query; the `Engine`
  carries, per query site, the error the engine reports there (`none` when the
  query runs).
* SQL conditions are evaluated in SQL's three-valued logic (`SQLBool`); a row
  is selected when its condition is `TRUE`, not when it is `FALSE` or `NULL`.
  `=` on strings is equality of strings (a binary collation).
* A Go function returning `(*User, error)` returns a pair of options: a nil
  pointer and a nil error are `none`.
* A failed single-value type assertion is a run-time panic: `Outcome.panic`.
* Calls to the logger are dropped: they have no effect on what is returned.
* A function that writes to the database returns the engine after the call
  next to its Go return values.
* A primary key is neither written by an update nor shared by two rows of a
  well-formed table; where a statement needs that, it is a hypothesis.
* A Go map is the list of its entries; the order in which `range` walks it is
  a parameter, any rearrangement of that list.
-/

namespace Vikunja

/-! ## Errors -/

/-- The error values of the embedded code.  `engine` stands for any error the
xorm engine itself reports; `ErrMismatchedHashAndPassword` and `bcryptOther`
are the errors of `bcrypt.CompareHashAndPassword`. -/
inductive Error where
  | ErrLabelDoesNotExist (LabelID : Int)
  | ErrUserDoesNotExist (UserID : Int)
  | ErrNoUsernamePassword
  | ErrWrongUsernameOrPassword
  | ErrEmailNotConfirmed (UserID : Int)
  | ErrCouldNotGetUserID
  | ErrNamespaceNameCannotBeEmpty (NamespaceID : Int) (UserID : Int)
  | ErrMismatchedHashAndPassword
  | bcryptOther (msg : String)
  | ErrUsernameExists (UserID : Int) (Username : String)
  | ErrUserEmailExists (UserID : Int) (Email : String)
  | ErrInvalidAvatarProvider (AvatarProvider : String)
  | ErrGenericForbidden
  | ErrTaskDoesNotExist (ID : Int)
  | engine (msg : String)
  deriving DecidableEq, Repr

/-- What a Go call ends in: it returns a value, or it panics. -/
inductive Outcome (α : Type) where
  | returned (a : α)
  | panic (msg : String)
  deriving DecidableEq, Repr

/-! ## Rows -/

/-- The `User` struct of `pkg/user/user.go`, lines 43-71 (time stamps as
integers, the embedded `web.Auth` left out). -/
structure User where
  ID : Int := 0
  Name : String := ""
  Username : String := ""
  Password : String := ""
  Email : String := ""
  IsActive : Bool := false
  PasswordResetToken : String := ""
  EmailConfirmToken : String := ""
  AvatarProvider : String := ""
  AvatarFileID : Int := 0
  Issuer : String := ""
  Subject : String := ""
  Created : Int := 0
  Updated : Int := 0
  deriving DecidableEq, Repr

/-- The `Login` struct of `pkg/user/user.go`, lines 33-40. -/
structure Login where
  Username : String := ""
  Password : String := ""
  TOTPPasscode : String := ""
  deriving DecidableEq, Repr

/-- Modelled from the spec: the declaration of `Label` is not in `src/`.  A
row of table `labels`: the columns the rights code reads are `id` and
`created_by_id`; the creator is a separate fact from any grant (spec §3). -/
structure Label where
  ID : Int := 0
  Title : String := ""
  Description : String := ""
  HexColor : String := ""
  CreatedByID : Int := 0
  deriving DecidableEq, Repr

/-- Modelled from the spec: the declaration of `LabelTask` is not in `src/`.
A row of table `label_task`, the attachment of a label to a task; the query
of `hasAccessToLabel` reads its columns `label_id` and `task_id`. -/
structure LabelTask where
  ID : Int := 0
  TaskID : Int := 0
  LabelID : Int := 0
  deriving DecidableEq, Repr

/-- The `TaskComment` struct of `pkg/models/task_comments.go`, lines 25-38
(time stamps as integers; `Author` is no column of the table). -/
structure TaskComment where
  ID : Int := 0
  Comment : String := ""
  AuthorID : Int := 0
  Author : Option User := none
  TaskID : Int := 0
  Created : Int := 0
  Updated : Int := 0
  deriving DecidableEq, Repr

/-- Modelled from the spec: the declaration of `RelationKind` is not in
`src/`; a kind of relation between two tasks, a string. -/
abbrev RelationKind := String

/-- Modelled from the spec: the declaration of `TaskReminder` is not in `src/`;
the migration sets what the reminder is relative to and the period in
seconds. -/
structure TaskReminder where
  ID : Int := 0
  TaskID : Int := 0
  Reminder : Int := 0
  RelativePeriod : Int := 0
  RelativeTo : String := ""
  deriving DecidableEq, Repr

/-- Modelled from the spec: the declaration of `Task` is not in `src/`.  A row
of table `tasks`, an entity with an id that lives in a project (spec §3); the
comment code reads its `ID` alone, the migration sets the other fields.  Points
in time are integers, 0 the zero time; a position is a `float64`, a rational
number here; the tasks of a relation are given by their ids (the migration
stores tasks of which the id alone is set). -/
structure Task where
  ID : Int := 0
  Title : String := ""
  ProjectID : Int := 0
  CreatedByID : Int := 0
  Description : String := ""
  Done : Bool := false
  DoneAt : Int := 0
  DueDate : Int := 0
  StartDate : Int := 0
  EndDate : Int := 0
  Position : Rat := 0
  Labels : List Label := []
  Reminders : List TaskReminder := []
  RelatedTasks : List (RelationKind × List Int) := []
  deriving DecidableEq, Repr

/-- Modelled from the spec: the declaration of `TaskWithComments` is not in
`src/`: a task and its comments. -/
structure TaskWithComments where
  Task : Task := {}
  Comments : List TaskComment := []
  deriving DecidableEq, Repr

/-- Modelled from the spec: the declaration of `Project` is not in `src/`: a
container of tasks (spec §3); the migration sets its `Title`. -/
structure Project where
  ID : Int := 0
  Title : String := ""
  Description : String := ""
  ParentProjectID : Int := 0
  OwnerID : Int := 0
  deriving DecidableEq, Repr

/-- Modelled from the spec: the declaration of `ProjectWithTasksAndBuckets` is
not in `src/`: a project with its tasks and its child projects (its buckets
are never touched by the migration and are left out). -/
structure ProjectWithTasksAndBuckets where
  Project : Project
  ChildProjects : List ProjectWithTasksAndBuckets
  Tasks : List TaskWithComments
  deriving Repr

/-- The `tickTickTask` struct of `ticktick.go`, lines 41-62.  A `tickTickTime`
is a point in time, an integer with 0 the zero time; a `time.Duration` is a
number of nanoseconds; `Order` is a `float64`, a rational number here. -/
structure tickTickTask where
  FolderName : String := ""
  ProjectName : String := ""
  Title : String := ""
  TagsList : String := ""
  Tags : List String := []
  Content : String := ""
  IsChecklistString : String := ""
  IsChecklist : Bool := false
  StartDate : Int := 0
  DueDate : Int := 0
  ReminderDuration : String := ""
  Reminder : Int := 0
  Repeat : String := ""
  Priority : Int := 0
  Status : String := ""
  CreatedTime : Int := 0
  CompletedTime : Int := 0
  Order : Rat := 0
  TaskID : Int := 0
  ParentID : Int := 0
  deriving DecidableEq, Repr

/-! ## Namespaces (rights engine of the spec) -/

/-- Modelled from the spec: the rights code of namespaces is not in `src/`
(only `namespace_test.go` is).  Spec §3: permission levels are totally ordered,
`None < Read < Write < Admin`. -/
inductive PermissionLevel where
  | None
  | Read
  | Write
  | Admin
  deriving DecidableEq, Repr

/-- Modelled from the spec: the position of a level in the total order
`None < Read < Write < Admin` of spec §3 (the declaration is not in `src/`). -/
def PermissionLevel.rank : PermissionLevel → Nat
  | .None => 0
  | .Read => 1
  | .Write => 2
  | .Admin => 3

/-- Modelled from the spec: the greater of two levels in the order of spec §3
(not in `src/`). -/
def PermissionLevel.max (a b : PermissionLevel) : PermissionLevel :=
  if a.rank ≤ b.rank then b else a

/-- Modelled from the spec: the capabilities of spec §4.5 (not in `src/`). -/
inductive Capability where
  | Read
  | Create
  | Update
  | Delete
  deriving DecidableEq, Repr

/-- Modelled from the spec: the level a capability requires on an existing
entity, spec §4.5 (not in `src/`): "Read requires ≥Read, Update requires
≥Write, Delete requires ≥Write, Create on a container requires ≥Write". -/
def Capability.required : Capability → PermissionLevel
  | .Read => .Read
  | .Create => .Write
  | .Update => .Write
  | .Delete => .Write

/-- Modelled from the spec: the declaration of `Namespace` is not in `src/`.
A root container with its creator (spec §3); `namespace_test.go` sets `Name`
and `Description` and reads `ID` and `Owner`. -/
structure Namespace where
  ID : Int := 0
  Name : String := ""
  Description : String := ""
  OwnerID : Int := 0
  deriving DecidableEq, Repr

/-- Modelled from the spec: the kind of principal a grant names, spec §3 (not
in `src/`). -/
inductive PrincipalKind where
  | User
  | Team
  deriving DecidableEq, Repr

/-- Modelled from the spec: a grant on a namespace, the tuple of spec §3
restricted to subject kind Namespace (not in `src/`). -/
structure NamespaceGrant where
  NamespaceID : Int
  Kind : PrincipalKind
  PrincipalID : Int
  Level : PermissionLevel
  deriving DecidableEq, Repr

/-- Modelled from the spec: a team membership, read by the Team Membership
Index of spec §4.2 (not in `src/`). -/
structure TeamMember where
  TeamID : Int
  UserID : Int
  deriving DecidableEq, Repr

/-! ## The engine -/

/-- The database behind the package variable `x`. -/
structure Engine where
  /-- Table `labels`. -/
  labels : List Label := []
  /-- Table `label_task`. -/
  label_task : List LabelTask := []
  /-- Table `users`. -/
  users : List User := []
  /-- Table `namespaces`. -/
  namespaces : List Namespace := []
  /-- The grants on namespaces (Grant Store of spec §4.3). -/
  namespace_grants : List NamespaceGrant := []
  /-- The team memberships (Team Membership Index of spec §4.2). -/
  team_members : List TeamMember := []
  /-- The helper `getUserTaskIDs` is not in `src/`; it is taken as given: for
  a user, the ids of the tasks that user can read, or an error. -/
  getUserTaskIDs : User → Except Error (List Int) := fun _ => .ok []
  /-- Error reported by the `Get` of `getLabelByIDSimple`, if any. -/
  labelGetErr : Option Error := none
  /-- Error reported by the `Exist` of `hasAccessToLabel`, if any. -/
  labelExistErr : Option Error := none
  /-- Error reported by a `Get` on table `users`, if any. -/
  userGetErr : Option Error := none
  /-- Error reported by a `Find` on table `users`, if any. -/
  userFindErr : Option Error := none
  /-- Error reported by an `Update` on table `users`, if any. -/
  userUpdateErr : Option Error := none
  /-- Error reported by an `Insert` into table `users`, if any. -/
  userInsertErr : Option Error := none
  /-- The time of the call, which xorm writes to `created` and `updated`. -/
  now : Int := 0
  /-- The setting `mailer.enabled`. -/
  mailerEnabled : Bool := false
  /-- The library call `bcrypt.GenerateFromPassword(password, 14)`, taken as
  given: the hash as a string, or an error. -/
  GenerateFromPassword : String → Except Error String := fun p => .ok ("hash:" ++ p)
  /-- The helper `utils.MakeRandomString` is not in `src/`; it is taken as
  given. -/
  MakeRandomString : Nat → String := fun _ => ""
  /-- Table `tasks`. -/
  tasks : List Task := []
  /-- Table `task_comments`. -/
  task_comments : List TaskComment := []
  /-- The method `TaskComment.CanRead` is not in `src/`; it is taken as given:
  for a comment and a principal, whether the principal can read the task of
  the comment, and an error. -/
  TaskCommentCanRead : TaskComment → User → Bool × Option Error := fun _ _ => (false, none)
  /-- The helper `getLimitFromPageIndex` is not in `src/`; it is taken as
  given: for page and page size, the limit and the start. -/
  getLimitFromPageIndex : Int → Int → Int × Int := fun _ _ => (0, 0)
  /-- The operator `like` of the database, taken as given: whether the first
  string matches the pattern. -/
  like : String → String → Bool := fun _ _ => true
  /-- Error reported by the `Get` of `GetTaskSimple`, if any. -/
  taskGetErr : Option Error := none
  /-- Error reported by an `Insert` into table `task_comments`, if any. -/
  commentInsertErr : Option Error := none
  /-- Error reported by the `Find` of comments in `ReadAll`, if any. -/
  commentFindErr : Option Error := none
  /-- Error reported by the `Find` of authors in `ReadAll`, if any. -/
  authorFindErr : Option Error := none
  /-- Error reported by the `Count` in `ReadAll`, if any. -/
  commentCountErr : Option Error := none

/-! ## SQL conditions -/

/-- Truth values of SQL conditions. -/
inductive SQLBool where
  | TRUE
  | FALSE
  | NULL
  deriving DecidableEq, Repr

namespace SQLBool

/-- A condition on non-null operands. -/
def ofBool (b : Bool) : SQLBool := if b then TRUE else FALSE

/-- SQL `OR`. -/
def or : SQLBool → SQLBool → SQLBool
  | TRUE, _ => TRUE
  | _, TRUE => TRUE
  | FALSE, FALSE => FALSE
  | _, _ => NULL

/-- SQL `AND`. -/
def and : SQLBool → SQLBool → SQLBool
  | FALSE, _ => FALSE
  | _, FALSE => FALSE
  | TRUE, TRUE => TRUE
  | _, _ => NULL

/-- A `WHERE` clause keeps the rows on which it is `TRUE`. -/
def selects : SQLBool → Bool
  | TRUE => true
  | _ => false

end SQLBool

/-- SQL `col != null`: a comparison with `NULL` is `NULL` whatever the column holds. -/
def sqlNeNull (_col : Option Int) : SQLBool := SQLBool.NULL

/-- SQL `col = ?` with a non-null argument. -/
def sqlEq (col : Option Int) (v : Int) : SQLBool :=
  match col with
  | none => SQLBool.NULL
  | some c => SQLBool.ofBool (c == v)

/-- SQL of `builder.In(col, vals)`: the builder writes `0=1` for an empty
list, and `col IN (?, ...)` otherwise. -/
def sqlIn (col : Option Int) (vals : List Int) : SQLBool :=
  match vals with
  | [] => SQLBool.FALSE
  | _ :: _ =>
    match col with
    | none => SQLBool.NULL
    | some c => SQLBool.ofBool (vals.contains c)

/-! ## `pkg/models/label_rights.go` -/

/-- Modelled from the spec: `getUserForRights` is not in `src/`.  The
principal of a label check is a registered user with a stable numeric
identity (spec §3); the helper hands that user back. -/
def getUserForRights (a : User) : User := a

/-- Modelled from the spec: `getLabelByIDSimple` is not in `src/`.  It fetches
the row of `labels` with the given id; a reference to a nonexistent id is an
error (spec §4.5, `NotFound`), and so is a failure of the engine. -/
def getLabelByIDSimple (x : Engine) (labelID : Int) : Except Error Label :=
  match x.labelGetErr with
  | some e => .error e
  | none =>
    match x.labels.find? (fun l => l.ID == labelID) with
    | none => .error (Error.ErrLabelDoesNotExist labelID)
    | some l => .ok l

/-- `isLabelOwner`, label_rights.go lines 46-54. -/
def Label.isLabelOwner (x : Engine) (l : Label) (a : User) : Bool :=
  let u := getUserForRights a
  match getLabelByIDSimple x l.ID with
  | .error _ => false
  | .ok lorig => lorig.CreatedByID == u.ID

/-- The rows of `labels LEFT JOIN label_task ON label_task.label_id = labels.id`:
every label with each of its attachments, or once with `NULL`s when it has none. -/
def labelsLeftJoinLabelTask (x : Engine) : List (Label × Option LabelTask) :=
  x.labels.flatMap fun l =>
    match x.label_task.filter (fun lt => lt.LabelID == l.ID) with
    | [] => [(l, none)]
    | lt :: lts => (lt :: lts).map fun r => (l, some r)

/-- The condition of the query in `hasAccessToLabel`, lines 72-74, as xorm
composes `Where(a).Or(b).And(c)`:
`((label_task.label_id != null OR labels.created_by_id = ?) OR label_task.task_id IN (...)) AND (labels.id = ?)`. -/
def hasAccessToLabelCond (userID : Int) (taskIDs : List Int) (labelID : Int)
    (row : Label × Option LabelTask) : SQLBool :=
  (((sqlNeNull (row.2.map (·.LabelID))).or (sqlEq (some row.1.CreatedByID) userID)).or
      (sqlIn (row.2.map (·.TaskID)) taskIDs)).and
    (sqlEq (some row.1.ID) labelID)

/-- The `Exist` query of `hasAccessToLabel`, lines 69-76.  `GROUP BY labels.id`
merges the selected rows of one label; it leaves some row exactly when some
row was selected. -/
def hasAccessToLabelExist (x : Engine) (userID : Int) (taskIDs : List Int) (labelID : Int) :
    Except Error Bool :=
  match x.labelExistErr with
  | some e => .error e
  | none =>
    .ok ((labelsLeftJoinLabelTask x).any fun row =>
      (hasAccessToLabelCond userID taskIDs labelID row).selects)

/-- `hasAccessToLabel`, label_rights.go lines 56-83. -/
def Label.hasAccessToLabel (x : Engine) (l : Label) (a : User) : Bool :=
  let u := getUserForRights a
  match x.getUserTaskIDs u with
  | .error _ => false
  | .ok taskIDs =>
    match hasAccessToLabelExist x u.ID taskIDs l.ID with
    | .error _ => false
    | .ok has => has

/-- `CanUpdate`, label_rights.go lines 25-28. -/
def Label.CanUpdate (x : Engine) (l : Label) (a : User) : Bool :=
  l.isLabelOwner x a

/-- `CanDelete`, label_rights.go lines 30-33. -/
def Label.CanDelete (x : Engine) (l : Label) (a : User) : Bool :=
  l.isLabelOwner x a

/-- `CanRead`, label_rights.go lines 35-38. -/
def Label.CanRead (x : Engine) (l : Label) (a : User) : Bool :=
  l.hasAccessToLabel x a

/-- `CanCreate`, label_rights.go lines 40-44: "Currently a dummy." -/
def Label.CanCreate (_x : Engine) (_l : Label) (_a : User) : Bool :=
  true


/-! ## Namespace rights -/

/-- Modelled from the spec: `TeamsOf` of spec §4.2 (not in `src/`). -/
def TeamsOf (x : Engine) (userID : Int) : List Int :=
  (x.team_members.filter (fun m => m.UserID == userID)).map (·.TeamID)

/-- Modelled from the spec: the greatest level among the grants of a namespace
that name the user or one of the user's teams; `None` when there is no such
grant (spec §4.3 `DirectGrant`, §4.2 `TeamGrant`, §4.5 step 3; not in `src/`). -/
def namespaceGrantLevel (x : Engine) (namespaceID : Int) (userID : Int) : PermissionLevel :=
  ((x.namespace_grants.filter fun g =>
      g.NamespaceID == namespaceID &&
        ((g.Kind == PrincipalKind.User && g.PrincipalID == userID) ||
          (g.Kind == PrincipalKind.Team && (TeamsOf x userID).contains g.PrincipalID))).map
    (·.Level)).foldl PermissionLevel.max PermissionLevel.None

/-- Modelled from the spec: the effective level of a user on a namespace,
spec §4.5 (not in `src/`).  A nonexistent namespace resolves to no level (fail
closed); the creator has `Admin` (step 1, short-circuit); otherwise the
greatest grant (step 3; a namespace is a root, the walk visits it alone). -/
def namespaceEffectiveLevel (x : Engine) (namespaceID : Int) (u : User) : PermissionLevel :=
  match x.namespaces.find? (fun n => n.ID == namespaceID) with
  | none => PermissionLevel.None
  | some n =>
    if n.OwnerID == u.ID then PermissionLevel.Admin
    else namespaceGrantLevel x namespaceID u.ID

/-- Modelled from the spec: `Authorize` of spec §4.5 for a user and an existing
namespace (not in `src/`): allow iff effective ≥ required (step 4). -/
def Namespace.Authorize (x : Engine) (n : Namespace) (u : User) (c : Capability) : Bool :=
  decide (c.required.rank ≤ (namespaceEffectiveLevel x n.ID u).rank)

/-- Modelled from the spec: `CanRead` of a namespace (not in `src/`), spec §6. -/
def Namespace.CanRead (x : Engine) (n : Namespace) (a : User) : Bool :=
  n.Authorize x a Capability.Read

/-- Modelled from the spec: `CanUpdate` of a namespace (not in `src/`), spec §6. -/
def Namespace.CanUpdate (x : Engine) (n : Namespace) (a : User) : Bool :=
  n.Authorize x a Capability.Update

/-- Modelled from the spec: `CanDelete` of a namespace (not in `src/`), spec §6. -/
def Namespace.CanDelete (x : Engine) (n : Namespace) (a : User) : Bool :=
  n.Authorize x a Capability.Delete

/-- Modelled from the spec: `CanCreate` of a namespace (not in `src/`): spec
§4.5, top-level namespace creation "is unconditionally allowed for any
authenticated RegisteredUser". -/
def Namespace.CanCreate (_x : Engine) (_n : Namespace) (_a : User) : Bool :=
  true

/-- Modelled from the spec: helper of `Namespace.Create` (not in `src/`), the
greatest id of table `namespaces`, 0 when it is empty; `autoincr` hands out the
next one. -/
def maxNamespaceID : List Namespace → Int
  | [] => 0
  | n :: ns => Max.max n.ID (maxNamespaceID ns)

/-- Modelled from the spec: `Namespace.Create` is not in `src/`.  From
`namespace_test.go`: a namespace without a name is refused with
`ErrNamespaceNameCannotBeEmpty`, a doer who is not a stored user with
`ErrUserDoesNotExist`; otherwise the namespace is inserted under a fresh id
(`autoincr`) with the doer as its creator (spec §3: ownership is the creator
identity), and the caller's namespace carries the new id. -/
def Namespace.Create (x : Engine) (n : Namespace) (doer : User) :
    Except Error (Engine × Namespace) :=
  if n.Name == "" then .error (Error.ErrNamespaceNameCannotBeEmpty n.ID doer.ID)
  else
    match x.userGetErr with
    | some e => .error e
    | none =>
      match x.users.find? (fun s => s.ID == doer.ID) with
      | none => .error (Error.ErrUserDoesNotExist doer.ID)
      | some owner =>
        let created : Namespace :=
          { n with ID := maxNamespaceID x.namespaces + 1, OwnerID := owner.ID }
        .ok ({ x with namespaces := x.namespaces ++ [created] }, created)

/-! ## `pkg/user/user.go` -/

/-- A value of type `interface{}` held by a `jwt.MapClaims`.  A decoded JSON
number is a `float64`; every finite `float64` is a rational number. -/
inductive ClaimValue where
  | float64 (f : Rat)
  | string (s : String)
  | bool (b : Bool)
  | nil
  | other
  deriving DecidableEq, Repr

/-- The type `jwt.MapClaims`, a `map[string]interface{}`. -/
abbrev MapClaims := List (String × ClaimValue)

/-- The index expression `claims[key]`: the nil interface for a missing key. -/
def MapClaims.index (claims : MapClaims) (key : String) : ClaimValue :=
  (claims.lookup key).getD ClaimValue.nil

/-- The comma-ok type assertion `v.(float64)`: it never panics. -/
def assertFloat64 (v : ClaimValue) : Rat × Bool :=
  match v with
  | .float64 f => (f, true)
  | _ => (0, false)

/-- The single-value type assertion `v.(string)`: it panics when `v` does not
hold a string. -/
def assertString (v : ClaimValue) : Outcome String :=
  match v with
  | .string s => .returned s
  | _ => .panic "interface conversion: interface is not string"

/-- The conversion `int64(f)`: the fraction is discarded (Go leaves the result
open when the value does not fit 64 bits; no claim here depends on it). -/
def int64OfFloat64 (f : Rat) : Int :=
  f.num.tdiv f.den

/-- `GetUserFromClaims`, user.go lines 244-258. -/
def GetUserFromClaims (claims : MapClaims) : Outcome (Option User × Option Error) :=
  match assertFloat64 (claims.index "id") with
  | (_, false) => .returned (none, some Error.ErrCouldNotGetUserID)
  | (userID, true) =>
    match assertString (claims.index "email") with
    | .panic msg => .panic msg
    | .returned email =>
      match assertString (claims.index "username") with
      | .panic msg => .panic msg
      | .returned username =>
        match assertString (claims.index "name") with
        | .panic msg => .panic msg
        | .returned name =>
          .returned
            (some { ID := int64OfFloat64 userID, Email := email, Username := username,
                    Name := name },
              none)

/-- The condition `username = ? OR email = ?` of `getUserByUsernameOrEmail` on
a row of `users` (both arguments are the same string). -/
def matchesUsernameOrEmail (usernameOrEmail : String) (u : User) : Bool :=
  u.Username == usernameOrEmail || u.Email == usernameOrEmail

/-- `getUserByUsernameOrEmail`, user.go lines 179-193.  Every return of the Go
function has exactly one of user and error non-nil. -/
def getUserByUsernameOrEmail (x : Engine) (usernameOrEmail : String) : Except Error User :=
  match x.userGetErr with
  | some e => .error e
  | none =>
    match x.users.find? (matchesUsernameOrEmail usernameOrEmail) with
    | none => .error (Error.ErrUserDoesNotExist 0)
    | some u => .ok { u with Email := "" }

/-- The library function `bcrypt.CompareHashAndPassword`, taken as given: from
the stored hash and the password to `none` (they match) or an error. -/
abbrev CompareHashAndPassword := String → String → Option Error

/-- `CheckUserPassword`, user.go lines 224-235. -/
def CheckUserPassword (compare : CompareHashAndPassword) (user : User) (password : String) :
    Option Error :=
  match compare user.Password password with
  | some err =>
    if err = Error.ErrMismatchedHashAndPassword then some Error.ErrWrongUsernameOrPassword
    else some err
  | none => none

/-- `CheckUserCredentials`, user.go lines 195-222.  The hash computed on the
failure path is thrown away. -/
def CheckUserCredentials (x : Engine) (compare : CompareHashAndPassword) (u : Login) :
    Option User × Option Error :=
  if u.Password == "" || u.Username == "" then (none, some Error.ErrNoUsernamePassword)
  else
    match getUserByUsernameOrEmail x u.Username with
    | .error _ => (none, some Error.ErrWrongUsernameOrPassword)
    | .ok user =>
      if !user.IsActive then (some {}, some (Error.ErrEmailNotConfirmed user.ID))
      else
        match CheckUserPassword compare user u.Password with
        | some err => (none, some err)
        | none => (some user, none)

/-! ## `pkg/user/user.go`: looking users up -/

/-- The message of the run-time panic on a nil pointer dereference. -/
def nilDereference : String :=
  "runtime error: invalid memory address or nil pointer dereference"

/-- The conditions xorm's `Get` builds from a bean of type `User`: one
equality per field of the bean that is not the zero value of its type; a
`bool` field never makes a condition. -/
def userBeanCond (bean row : User) : Bool :=
  (bean.ID == 0 || row.ID == bean.ID) &&
  (bean.Name == "" || row.Name == bean.Name) &&
  (bean.Username == "" || row.Username == bean.Username) &&
  (bean.Password == "" || row.Password == bean.Password) &&
  (bean.Email == "" || row.Email == bean.Email) &&
  (bean.PasswordResetToken == "" || row.PasswordResetToken == bean.PasswordResetToken) &&
  (bean.EmailConfirmToken == "" || row.EmailConfirmToken == bean.EmailConfirmToken) &&
  (bean.AvatarProvider == "" || row.AvatarProvider == bean.AvatarProvider) &&
  (bean.AvatarFileID == 0 || row.AvatarFileID == bean.AvatarFileID) &&
  (bean.Issuer == "" || row.Issuer == bean.Issuer) &&
  (bean.Subject == "" || row.Subject == bean.Subject) &&
  (bean.Created == 0 || row.Created == bean.Created) &&
  (bean.Updated == 0 || row.Updated == bean.Updated)

/-- The call `x.Get(bean)` on table `users`: the first row that satisfies the
conditions of the bean, if there is one, or the error of the engine. -/
def xGetUser (x : Engine) (bean : User) : Except Error (Option User) :=
  match x.userGetErr with
  | some e => .error e
  | none => .ok (x.users.find? (userBeanCond bean))

/-- `getUser`, user.go lines 160-177.  The argument is a pointer: `none` is the
nil pointer, and the copy `*userOut = *user` dereferences it. -/
def getUser (x : Engine) (user : Option User) (withEmail : Bool) :
    Outcome (Option User × Option Error) :=
  match user with
  | none => .panic nilDereference
  | some u =>
    match xGetUser x u with
    | .error err => .returned (none, some err)
    | .ok none => .returned (some {}, some (Error.ErrUserDoesNotExist u.ID))
    | .ok (some userOut) =>
      if !withEmail then .returned (some { userOut with Email := "" }, none)
      else .returned (some userOut, none)

/-- `GetUser`, user.go lines 134-137. -/
def GetUser (x : Engine) (user : Option User) : Outcome (Option User × Option Error) :=
  getUser x user false

/-- `GetUserWithEmail`, user.go lines 139-142. -/
def GetUserWithEmail (x : Engine) (user : Option User) : Outcome (Option User × Option Error) :=
  getUser x user true

/-- `GetUserByID`, user.go lines 115-123. -/
def GetUserByID (x : Engine) (id : Int) : Outcome (Option User × Option Error) :=
  if id < 1 then .returned (some {}, some (Error.ErrUserDoesNotExist 0))
  else GetUser x (some { ID := id })

/-- `GetUserByUsername`, user.go lines 125-132. -/
def GetUserByUsername (x : Engine) (username : String) : Outcome (Option User × Option Error) :=
  if username == "" then .returned (some {}, some (Error.ErrUserDoesNotExist 0))
  else GetUser x (some { Username := username })

/-- `GetUsersByIDs`, user.go lines 144-158.  The map is a list of pairs of key
and user, keyed by the primary key; when `Find` fails the map is returned as
it is, with no row in it. -/
def GetUsersByIDs (x : Engine) (userIDs : List Int) : List (Int × User) × Option Error :=
  match x.userFindErr with
  | some err => ([], some err)
  | none =>
    (((x.users.filter fun u => (sqlIn (some u.ID) userIDs).selects).map fun u =>
        (u.ID, { u with Email := "" })),
      none)

/-- Clears the e-mail address of the user of a returned pair. -/
def obfuscateEmail (r : Option User × Option Error) : Option User × Option Error :=
  (r.1.map fun u => { u with Email := "" }, r.2)

/-- Applies a function to the value a call returned. -/
def Outcome.map {α β : Type} (f : α → β) : Outcome α → Outcome β
  | .returned a => .returned (f a)
  | .panic msg => .panic msg

/-! ## `pkg/user/user.go`: updating a user -/

/-- `IsErrUserDoesNotExist`: the error is of type `ErrUserDoesNotExist`. -/
def IsErrUserDoesNotExist : Error → Bool
  | .ErrUserDoesNotExist _ => true
  | _ => false

/-- A step of a Go function body: `.error r` leaves the function with the
return values `r`, `.ok v` goes on to the next statement with `v`. -/
abbrev Step (ρ α : Type) := Except ρ α

/-- `UpdateUser`, user.go lines 269-281: keep the stored username when none is
supplied, otherwise refuse a username that another user holds.  Yields the
user with the username to store. -/
def UpdateUser.checkUsername (x : Engine) (user theUser : User) :
    Step (Outcome (Option User × Option Error)) User :=
  if user.Username == "" then .ok { user with Username := theUser.Username }
  else
    match GetUserByUsername x user.Username with
    | .panic msg => .error (.panic msg)
    | .returned (uu, err) =>
      if (match err with
          | some e => !IsErrUserDoesNotExist e
          | none => false) then .error (.returned (none, err))
      else
        match uu with
        | none => .error (.panic nilDereference)
        | some uu =>
          if uu.ID != 0 && uu.ID != user.ID then
            .error (.returned (none, some (Error.ErrUsernameExists uu.ID user.Username)))
          else .ok user

/-- `UpdateUser`, user.go lines 288-303: keep the stored e-mail address when
none is supplied, otherwise refuse an address that another user of the same
issuer and subject holds. -/
def UpdateUser.checkEmail (x : Engine) (user theUser : User) :
    Step (Outcome (Option User × Option Error)) User :=
  if user.Email == "" then .ok { user with Email := theUser.Email }
  else
    match getUser x (some { Email := user.Email, Issuer := user.Issuer,
                            Subject := user.Subject }) true with
    | .panic msg => .error (.panic msg)
    | .returned (uu, err) =>
      if (match err with
          | some e => !IsErrUserDoesNotExist e
          | none => false) then .error (.returned (none, err))
      else
        match uu with
        | none => .error (.panic nilDereference)
        | some uu =>
          if uu.ID != 0 && uu.ID != user.ID then
            .error (.returned (none, some (Error.ErrUserEmailExists uu.ID user.Email)))
          else .ok user

/-- `UpdateUser`, user.go lines 305-313: the avatar provider, when one is
given, is one of the four known ones. -/
def UpdateUser.validAvatarProvider (user : User) : Bool :=
  !(user.AvatarProvider != "" &&
    (user.AvatarProvider != "default" && user.AvatarProvider != "gravatar" &&
      user.AvatarProvider != "initials" && user.AvatarProvider != "upload"))

/-- The call `x.ID(id).Cols("username", "email", "avatar_provider",
"avatar_file_id", "is_active", "name").Update(user)`, user.go lines 316-326:
in every row of that id the six columns take the values of `user`, and the
column `updated` the time of the call. -/
def xUpdateUserCols (x : Engine) (id : Int) (user : User) : Except Error Engine :=
  match x.userUpdateErr with
  | some e => .error e
  | none =>
    .ok { x with
          users := x.users.map fun row =>
            if row.ID == id then
              { row with
                Username := user.Username, Email := user.Email,
                AvatarProvider := user.AvatarProvider, AvatarFileID := user.AvatarFileID,
                IsActive := user.IsActive, Name := user.Name, Updated := x.now }
            else row }

/-- `UpdateUser`, user.go lines 283-338: what follows the check of the
username.  Returns the engine after the call next to what the call returns. -/
def UpdateUser.finish (x : Engine) (user theUser : User) :
    Engine × Outcome (Option User × Option Error) :=
  let user := if user.Name == "" then { user with Name := theUser.Name } else user
  match UpdateUser.checkEmail x user theUser with
  | .error r => (x, r)
  | .ok user =>
    if !UpdateUser.validAvatarProvider user then
      (x, .returned (none, some (Error.ErrInvalidAvatarProvider user.AvatarProvider)))
    else
      match xUpdateUserCols x user.ID user with
      | .error err => (x, .returned (some {}, some err))
      | .ok x' =>
        match GetUserByID x' user.ID with
        | .panic msg => (x', .panic msg)
        | .returned (_, some err) => (x', .returned (some {}, some err))
        | .returned (updatedUser, none) => (x', .returned (updatedUser, none))

/-- `UpdateUser`, user.go lines 260-338.  Returns the engine after the call
next to what the call returns. -/
def UpdateUser (x : Engine) (user : User) : Engine × Outcome (Option User × Option Error) :=
  match GetUserWithEmail x (some { ID := user.ID }) with
  | .panic msg => (x, .panic msg)
  | .returned (_, some err) => (x, .returned (some {}, some err))
  | .returned (none, none) => (x, .panic nilDereference)
  | .returned (some theUser, none) =>
    match UpdateUser.checkUsername x user theUser with
    | .error r => (x, r)
    | .ok user => UpdateUser.finish x user theUser

/-! ## `pkg/models/user_add_update.go` -/

/-- Modelled from the spec: `models.GetUser`, the lookup by value that
`CreateUser` calls, is not in `src/`, and the spec does not describe it.  It
follows its callers (a `User` value and an error that `IsErrUserDoesNotExist`
tests) and `getUser` of `pkg/user/user.go`: the first row that satisfies the
bean, as it is stored. -/
def models.GetUser (x : Engine) (user : User) : User × Option Error :=
  match xGetUser x user with
  | .error err => ({}, some err)
  | .ok none => ({}, some (Error.ErrUserDoesNotExist user.ID))
  | .ok (some userOut) => (userOut, none)

/-- Modelled from the spec: `models.GetUserByID`, the lookup by value that
`models.UpdateUser` calls, is not in `src/`, and the spec does not describe
it.  It follows `GetUserByID` of `pkg/user/user.go`. -/
def models.GetUserByID (x : Engine) (id : Int) : User × Option Error :=
  if id < 1 then ({}, some (Error.ErrUserDoesNotExist 0))
  else models.GetUser x { ID := id }

/-- The call `x.Id(id).Update(user)`, user_add_update.go line 140: in every
row of that id each column whose field in `user` is not the zero value takes
that value (the key and `created` are never written, a `bool` is never
written), and the column `updated` the time of the call. -/
def xUpdateUserNonZero (x : Engine) (id : Int) (user : User) : Except Error Engine :=
  match x.userUpdateErr with
  | some e => .error e
  | none =>
    .ok { x with
          users := x.users.map fun row =>
            if row.ID == id then
              { row with
                Name := if user.Name == "" then row.Name else user.Name,
                Username := if user.Username == "" then row.Username else user.Username,
                Password := if user.Password == "" then row.Password else user.Password,
                Email := if user.Email == "" then row.Email else user.Email,
                PasswordResetToken :=
                  if user.PasswordResetToken == "" then row.PasswordResetToken
                  else user.PasswordResetToken,
                EmailConfirmToken :=
                  if user.EmailConfirmToken == "" then row.EmailConfirmToken
                  else user.EmailConfirmToken,
                AvatarProvider :=
                  if user.AvatarProvider == "" then row.AvatarProvider else user.AvatarProvider,
                AvatarFileID :=
                  if user.AvatarFileID == 0 then row.AvatarFileID else user.AvatarFileID,
                Issuer := if user.Issuer == "" then row.Issuer else user.Issuer,
                Subject := if user.Subject == "" then row.Subject else user.Subject,
                Updated := x.now }
            else row }

/-- `UpdateUser`, user_add_update.go lines 122-152.  Returns the engine after
the call next to what the call returns. -/
def models.UpdateUser (x : Engine) (user : User) : Engine × User × Option Error :=
  match models.GetUserByID x user.ID with
  | (_, some err) => (x, {}, some err)
  | (theUser, none) =>
    let user := if user.Username == "" then { user with Username := theUser.Username } else user
    let user := { user with Password := theUser.Password }
    match xUpdateUserNonZero x user.ID user with
    | .error err => (x, {}, some err)
    | .ok x' =>
      match models.GetUserByID x' user.ID with
      | (_, some err) => (x', {}, some err)
      | (updatedUser, none) => (x', updatedUser, none)

/-- `hashPassword`, user_add_update.go lines 116-120. -/
def hashPassword (x : Engine) (password : String) : Except Error String :=
  x.GenerateFromPassword password

/-- The greatest id of table `users`, 0 when it is empty; `autoincr` hands out
the next one. -/
def maxUserID : List User → Int
  | [] => 0
  | u :: us => Max.max u.ID (maxUserID us)

/-- The call `x.Insert(newUser)`, user_add_update.go line 80: a new row, under
the next id when the user carries none, created and updated at the time of the
call. -/
def xInsertUser (x : Engine) (newUser : User) : Except Error Engine :=
  match x.userInsertErr with
  | some e => .error e
  | none =>
    .ok { x with
          users := x.users ++
            [{ newUser with
               ID := if newUser.ID == 0 then maxUserID x.users + 1 else newUser.ID,
               Created := x.now, Updated := x.now }] }

/-- `CreateUser`, user_add_update.go lines 38-46 and 52-60: the lookup that
sets `exists`, together with the user found; an error other than
`ErrUserDoesNotExist` leaves `CreateUser`. -/
def models.CreateUser.lookup (x : Engine) (bean : User) : Step Error (Bool × User) :=
  match models.GetUser x bean with
  | (existingUser, some err) =>
    if IsErrUserDoesNotExist err then .ok (false, existingUser) else .error err
  | (existingUser, none) => .ok (true, existingUser)

/-- `CreateUser`, user_add_update.go lines 27-114.  Returns the engine after
the call next to what the call returns; the metrics counter and the mail that
is sent are not part of the engine. -/
def models.CreateUser (x : Engine) (user : User) : Engine × User × Option Error :=
  let newUser := user
  if newUser.Password == "" || newUser.Username == "" then
    (x, {}, some Error.ErrNoUsernamePassword)
  else
    match models.CreateUser.lookup x { Username := newUser.Username } with
    | .error err => (x, {}, some err)
    | .ok (true, _) => (x, {}, some (Error.ErrUsernameExists newUser.ID newUser.Username))
    | .ok (false, _) =>
      match models.CreateUser.lookup x { Email := newUser.Email } with
      | .error err => (x, {}, some err)
      | .ok (true, existingUser) =>
        (x, {}, some (Error.ErrUserEmailExists existingUser.ID existingUser.Email))
      | .ok (false, _) =>
        match hashPassword x user.Password with
        | .error err => (x, {}, some err)
        | .ok hashed =>
          let newUser : User :=
            if x.mailerEnabled then
              { newUser with
                Password := hashed, IsActive := false,
                EmailConfirmToken := x.MakeRandomString 400 }
            else { newUser with Password := hashed, IsActive := true }
          match xInsertUser x newUser with
          | .error err => (x, {}, some err)
          | .ok x1 =>
            match models.GetUser x1 newUser with
            | (_, some err) => (x1, {}, some err)
            | (newUserOut, none) =>
              match Namespace.Create x1
                  { Name := newUserOut.Username,
                    Description :=
                      newUserOut.Username ++ String.singleton (Char.ofNat 39) ++ "s namespace.",
                    OwnerID := newUserOut.ID }
                  newUserOut with
              | .error err => (x1, {}, some err)
              | .ok (x2, _) => (x2, newUserOut, none)

/-! ## `pkg/models/task_comments.go` -/

/-- `GetID`, user.go lines 73-76. -/
def User.GetID (u : User) : Int := u.ID

/-- Modelled from the spec: `GetTaskSimple` is not in `src/`.  It fetches the
row of `tasks` with the id of its argument; a reference to a nonexistent id is
an error (spec §4.5, `NotFound`), and so is a failure of the engine. -/
def GetTaskSimple (x : Engine) (t : Task) : Except Error Task :=
  match x.taskGetErr with
  | some e => .error e
  | none =>
    match x.tasks.find? (fun s => s.ID == t.ID) with
    | none => .error (Error.ErrTaskDoesNotExist t.ID)
    | some task => .ok task

/-- The greatest id of table `task_comments`, 0 when it is empty; `autoincr`
hands out the next one. -/
def maxTaskCommentID : List TaskComment → Int
  | [] => 0
  | c :: cs => Max.max c.ID (maxTaskCommentID cs)

/-- The call `x.Insert(tc)`, task_comments.go line 67: a new row, under the
next id when the comment carries none, created and updated at the time of the
call; the comment of the caller takes the id and the time stamps. -/
def xInsertTaskComment (x : Engine) (tc : TaskComment) : Except Error (Engine × TaskComment) :=
  match x.commentInsertErr with
  | some e => .error e
  | none =>
    let inserted : TaskComment :=
      { tc with
        ID := if tc.ID == 0 then maxTaskCommentID x.task_comments + 1 else tc.ID,
        Created := x.now, Updated := x.now }
    .ok ({ x with task_comments := x.task_comments ++ [{ inserted with Author := none }] },
      inserted)

/-- `Create`, task_comments.go lines 58-69.  Returns the engine and the
comment of the caller after the call next to the error. -/
def TaskComment.Create (x : Engine) (tc : TaskComment) (a : User) :
    Engine × TaskComment × Option Error :=
  match GetTaskSimple x { ID := tc.TaskID } with
  | .error err => (x, tc, some err)
  | .ok _ =>
    let tc := { tc with AuthorID := a.GetID }
    match xInsertTaskComment x tc with
    | .error err => (x, tc, some err)
    | .ok (x', tc') => (x', tc', none)

/-- The condition `task_id = ? AND comment like ?` of `ReadAll` with the
arguments `tc.TaskID` and `"%"+search+"%"`. -/
def readAllCond (x : Engine) (taskID : Int) (search : String) (c : TaskComment) : Bool :=
  c.TaskID == taskID && x.like c.Comment ("%" ++ search ++ "%")

/-- SQL of `Limit(limit, start)` as xorm writes it: `LIMIT limit OFFSET start`
for a positive start, `LIMIT limit` for a positive limit, nothing otherwise. -/
def applyLimit {α : Type} (limit start : Int) (rows : List α) : List α :=
  if start > 0 then (rows.drop start.toNat).take limit.toNat
  else if limit > 0 then rows.take limit.toNat
  else rows

/-- The first query of `ReadAll`, task_comments.go lines 179-184: the rows of
`task_comments LEFT JOIN users ON users.id = task_comments.author_id` that
satisfy the condition, cut to the page; `Find` reads the columns of
`task_comments` from each row. -/
def xFindTaskComments (x : Engine) (taskID : Int) (search : String) (page perPage : Int) :
    Except Error (List TaskComment) :=
  match x.commentFindErr with
  | some e => .error e
  | none =>
    let joined := x.task_comments.flatMap fun c =>
      match x.users.filter (fun u => u.ID == c.AuthorID) with
      | [] => [c]
      | u :: us => (u :: us).map fun _ => c
    .ok (applyLimit (x.getLimitFromPageIndex page perPage).1
      (x.getLimitFromPageIndex page perPage).2 (joined.filter (readAllCond x taskID search)))

/-- The second query of `ReadAll`, task_comments.go lines 190-196: the rows of
`users` joined to the comments that satisfy the condition. -/
def xFindCommentAuthors (x : Engine) (taskID : Int) (search : String) :
    Except Error (List User) :=
  match x.authorFindErr with
  | some e => .error e
  | none =>
    .ok ((x.task_comments.filter (readAllCond x taskID search)).flatMap fun c =>
      x.users.filter fun u => u.ID == c.AuthorID)

/-- The index expression `authors[id]` on the map that `Find` filled from the
rows in order, keyed by the primary key: the last row of that id, or nil. -/
def lookupAuthor (authors : List User) (id : Int) : Option User :=
  authors.reverse.find? fun u => u.ID == id

/-- The third query of `ReadAll`, task_comments.go lines 205-207: the number of
comments that satisfy the condition. -/
def xCountTaskComments (x : Engine) (taskID : Int) (search : String) : Int × Option Error :=
  match x.commentCountErr with
  | some e => (0, some e)
  | none => (((x.task_comments.filter (readAllCond x taskID search)).length : Int), none)

/-- `ReadAll`, task_comments.go lines 161-209.  The result of type
`interface{}` is `none` for nil and the comments otherwise. -/
def TaskComment.ReadAll (x : Engine) (tc : TaskComment) (auth : User) (search : String)
    (page perPage : Int) : Option (List TaskComment) × Int × Int × Option Error :=
  match x.TaskCommentCanRead tc auth with
  | (_, some err) => (none, 0, 0, some err)
  | (false, none) => (none, 0, 0, some Error.ErrGenericForbidden)
  | (true, none) =>
    match xFindTaskComments x tc.TaskID search page perPage with
    | .error err => (none, 0, 0, some err)
    | .ok comments =>
      match xFindCommentAuthors x tc.TaskID search with
      | .error err => (none, 0, 0, some err)
      | .ok authors =>
        let comments := comments.map fun c => { c with Author := lookupAuthor authors c.AuthorID }
        match xCountTaskComments x tc.TaskID search with
        | (numberOfTotalItems, err) => (some comments, comments.length, numberOfTotalItems, err)

/-! ## `pkg/modules/migration/ticktick/ticktick.go` -/

/-- The loop of `strings.Split(s, sep)` for a separator that is not empty:
`s` is read from the left; where the separator starts, the part read so far
ends and the separator is skipped.  `skip` counts the characters of a
separator still to skip, `acc` holds the part read so far, last character
first. -/
def splitAux (sep : List Char) : List Char → Nat → List Char → List (List Char)
  | [], _, acc => [acc.reverse]
  | _ :: cs, skip + 1, acc => splitAux sep cs skip acc
  | c :: cs, 0, acc =>
    if sep.isPrefixOf (c :: cs) then acc.reverse :: splitAux sep cs (sep.length - 1) []
    else splitAux sep cs 0 (c :: acc)

/-- The library function `strings.Split`: the parts of `s` between the
occurrences of `sep`, one more than there are occurrences; with an empty
separator, the characters of `s`. -/
def stringsSplit (s sep : String) : List String :=
  if sep.data.isEmpty then s.data.map String.singleton
  else (splitAux sep.data s.data 0 []).map String.mk

/-- The operator `<` of Go on strings, on the characters: the first place
where the strings differ decides, and a proper beginning of a string is less
than the string. -/
def lexLess : List Char → List Char → Bool
  | [], [] => false
  | [], _ :: _ => true
  | _ :: _, [] => false
  | a :: as, b :: bs =>
    if a.toNat < b.toNat then true
    else if b.toNat < a.toNat then false
    else lexLess as bs

/-- The operator `<` of Go on strings. -/
def stringLess (a b : String) : Bool :=
  lexLess a.data b.data

/-- Modelled from the spec: the constant `models.ReminderRelationDueDate` is
not in `src/`: a reminder relative to the due date. -/
def ReminderRelationDueDate : String := "due_date"

/-- Modelled from the spec: the constant `models.RelationKindParenttask` is not
in `src/`: the related task is the parent of the task. -/
def RelationKindParenttask : RelationKind := "parenttask"

/-- The conversion `int64(d.Seconds())` of a duration in nanoseconds: the
whole seconds, the fraction discarded (`Seconds` is a `float64`; on durations
of more than some months its rounding can differ from this by one second, and
no claim here depends on it). -/
def durationSeconds (d : Int) : Int :=
  d.tdiv 1000000000

/-- `convertTickTickToVikunja`, ticktick.go lines 96-131: the task made from
one TickTick task. -/
def convertTask (t : tickTickTask) : TaskWithComments :=
  let labels : List Label := t.Tags.map fun tag => { Title := tag }
  let task : Task :=
    { ID := t.TaskID, Title := t.Title, Description := t.Content, StartDate := t.StartDate,
      EndDate := t.DueDate, DueDate := t.DueDate, Done := t.Status == "1",
      DoneAt := t.CompletedTime, Position := t.Order, Labels := labels }
  let task : Task :=
    if !(t.DueDate == 0) && t.Reminder > 0 then
      { task with
        Reminders :=
          [{ RelativeTo := ReminderRelationDueDate,
             RelativePeriod := durationSeconds (t.Reminder * -1) }] }
    else task
  let task : Task :=
    if t.ParentID != 0 then
      { task with RelatedTasks := [(RelationKindParenttask, [t.ParentID])] }
    else task
  { Task := task }

/-- `convertTickTickToVikunja`, ticktick.go lines 87-94.  The map `projects`
is the list of its values, each under the key that is its title: a project for
the name is made when the map has none. -/
def ensureProject (projects : List ProjectWithTasksAndBuckets) (name : String) :
    List ProjectWithTasksAndBuckets :=
  if projects.any (fun p => p.Project.Title == name) then projects
  else projects ++ [{ Project := { Title := name }, ChildProjects := [], Tasks := [] }]

/-- `convertTickTickToVikunja`, ticktick.go line 133: the task is appended to
the tasks of the project under the key `name`. -/
def appendTask (projects : List ProjectWithTasksAndBuckets) (name : String)
    (task : TaskWithComments) : List ProjectWithTasksAndBuckets :=
  projects.map fun p =>
    if p.Project.Title == name then { p with Tasks := p.Tasks ++ [task] } else p

/-- `convertTickTickToVikunja`, ticktick.go lines 86-134: one turn of the loop
over the tasks. -/
def addToProjects (projects : List ProjectWithTasksAndBuckets) (t : tickTickTask) :
    List ProjectWithTasksAndBuckets :=
  appendTask (ensureProject projects t.ProjectName) t.ProjectName (convertTask t)

/-- The call `sort.Slice(parent.ChildProjects, less)` with `less` the order of
the titles, ticktick.go lines 140-142.  The titles are the keys of a map and so
pairwise distinct: every sorting procedure yields the same list, the one an
insertion sort yields. -/
def sortByTitle (l : List ProjectWithTasksAndBuckets) : List ProjectWithTasksAndBuckets :=
  l.insertionSort fun a b => stringLess b.Project.Title a.Project.Title = false

/-- `convertTickTickToVikunja`, ticktick.go lines 77-145.  `rangeOrder` is the
order in which `range` walks the map `projects`, which Go leaves open. -/
def convertTickTickToVikunja
    (rangeOrder : List ProjectWithTasksAndBuckets → List ProjectWithTasksAndBuckets)
    (tasks : List tickTickTask) : List ProjectWithTasksAndBuckets :=
  let projects := tasks.foldl addToProjects []
  let childProjects := rangeOrder projects
  [{ Project := { Title := "Migrated from TickTick" },
     ChildProjects := sortByTitle childProjects, Tasks := [] }]

/-- What holds of the map `projects` after the loop has run over `done`. -/
def ProjectsOf (done : List tickTickTask) (ps : List ProjectWithTasksAndBuckets) : Prop :=
  (ps.map (·.Project.Title)).Nodup ∧
  (∀ name, name ∈ ps.map (·.Project.Title) ↔ ∃ t ∈ done, t.ProjectName = name) ∧
  (∀ p ∈ ps,
    p.Tasks = (done.filter fun t => t.ProjectName == p.Project.Title).map convertTask ∧
      p.ChildProjects = []) ∧
  (ps.map (·.Tasks.length)).sum = done.length

/-- What `Migrate` takes as given: the decoding of the file (`csv.Reader`
behind `newLineSkipDecoder`, which skips three lines, and
`gocsv.UnmarshalDecoder`), the helper `utils.ParseISO8601Duration`, the
function `migration.InsertFromStructure`, none of them in `src/`, and the order
in which `range` walks a map. -/
structure MigrationEnv where
  UnmarshalDecoder : String → Except Error (List tickTickTask)
  ParseISO8601Duration : String → Int
  InsertFromStructure : List ProjectWithTasksAndBuckets → Option User → Option Error
  rangeOrder : List ProjectWithTasksAndBuckets → List ProjectWithTasksAndBuckets

/-- `Migrate`, ticktick.go lines 198-209: one turn of the loop over the decoded
tasks. -/
def Migrate.prepare (env : MigrationEnv) (task : tickTickTask) : tickTickTask :=
  let task := if task.IsChecklistString == "Y" then { task with IsChecklist := true } else task
  let reminder := env.ParseISO8601Duration task.ReminderDuration
  let task := if reminder > 0 then { task with Reminder := reminder } else task
  { task with Tags := stringsSplit task.TagsList ", " }

/-- `Migrate`, ticktick.go lines 187-214, on the content of the file. -/
def Migrate (env : MigrationEnv) (user : Option User) (file : String) : Option Error :=
  match env.UnmarshalDecoder file with
  | .error err => some err
  | .ok allTasks =>
    let allTasks := allTasks.map (Migrate.prepare env)
    let vikunjaTasks := convertTickTickToVikunja env.rangeOrder allTasks
    env.InsertFromStructure vikunjaTasks user

/-- The column `Tags` of a row with the given tags: the tags with `sep`
between each two of them. -/
def joinChars (sep : List Char) : List (List Char) → List Char
  | [] => []
  | [a] => a
  | a :: b :: l => a ++ sep ++ joinChars sep (b :: l)

/-- Whether `sep`, of two characters here, occurs in the characters. -/
def occursIn (sep : List Char) : List Char → Bool
  | [] => false
  | c :: cs => sep.isPrefixOf (c :: cs) || occursIn sep cs

/-! ## Example stores -/

/-- User 7. -/
def alice : User := { ID := 7, Username := "alice", Name := "Alice" }

/-- User 8. -/
def bob : User := { ID := 8, Username := "bob", Name := "Bob" }

/-- Label 1, made by user 7. -/
def urgentLabel : Label := { ID := 1, Title := "urgent", CreatedByID := 7 }

/-- Label 2, made by user 8. -/
def laterLabel : Label := { ID := 2, Title := "later", CreatedByID := 8 }

/-- Two labels; label 1 is attached to task 30; nobody can read any task. -/
def exampleEngine : Engine :=
  { labels := [urgentLabel, laterLabel],
    label_task := [{ ID := 1, TaskID := 30, LabelID := 1 }] }

/-- The store of `exampleEngine` after task 30 was shared with everybody. -/
def sharedEngine : Engine :=
  { exampleEngine with getUserTaskIDs := fun _ => .ok [30] }

/-- The store of `exampleEngine` with an engine that fails on every query. -/
def brokenEngine : Engine :=
  { exampleEngine with
    getUserTaskIDs := fun _ => .error (Error.engine "connection refused"),
    labelGetErr := some (Error.engine "connection refused"),
    labelExistErr := some (Error.engine "connection refused") }

/-- Appends a row to table `namespaces`. -/
def Engine.insertNamespace (x : Engine) (n : Namespace) : Engine :=
  { x with namespaces := x.namespaces ++ [n] }

/-- Users 7 and 8 are stored; there is no namespace, no grant and no team. -/
def namespaceEngine : Engine :=
  { users := [alice, bob] }

/-- The namespace user 7 gets from `Namespace.Create` in `namespaceEngine`. -/
def homeNamespace : Namespace :=
  { ID := 1, Name := "Test", Description := "Lorem Ipsum", OwnerID := 7 }

/-- A stand-in for bcrypt in examples: the hash of `p` is `"hash:" ++ p`. -/
def exampleCompare : CompareHashAndPassword :=
  fun hashed password =>
    if hashed == "hash:" ++ password then none else some Error.ErrMismatchedHashAndPassword

/-- Claims with an id and nothing else, as a token that is not a user token
carries them. -/
def claimsWithoutEmail : MapClaims :=
  [("id", ClaimValue.float64 1)]

/-- User 1 is active and has the username `a@b.c`; user 2 is not yet active
and has the e-mail address `a@b.c`. -/
def activeFirstEngine : Engine :=
  { users :=
      [{ ID := 1, Username := "a@b.c", Email := "x@y.z", Password := "hash:secret",
         IsActive := true },
       { ID := 2, Username := "carol", Email := "a@b.c", Password := "hash:other",
         IsActive := false }] }

/-- User 1 is not yet active and has the username `a@b.c`; user 2 is active
and has the e-mail address `a@b.c`. -/
def inactiveFirstEngine : Engine :=
  { users :=
      [{ ID := 1, Username := "a@b.c", Email := "x@y.z", Password := "hash:other",
         IsActive := false },
       { ID := 2, Username := "carol", Email := "a@b.c", Password := "hash:secret",
         IsActive := true }] }

/-- A login under the name `a@b.c`. -/
def ambiguousLogin : Login :=
  { Username := "a@b.c", Password := "secret" }

/-- One user, active, with username `dave`. -/
def oneUserEngine : Engine :=
  { users :=
      [{ ID := 4, Username := "dave", Email := "dave@example.org", Password := "hash:secret",
         IsActive := true }] }

/-- One user, not yet active, with username `erin`. -/
def pendingUserEngine : Engine :=
  { users :=
      [{ ID := 5, Username := "erin", Email := "erin@example.org", Password := "hash:secret",
         IsActive := false }] }

/-- Task 30 with two comments, one by user 7 and one by user 8; task 31 with
one comment; everybody may read the comments of task 30 and nobody those of
task 31. -/
def commentEngine : Engine :=
  { users := [alice, bob],
    tasks := [{ ID := 30, Title := "write" }, { ID := 31, Title := "review" }],
    task_comments :=
      [{ ID := 1, Comment := "first", AuthorID := 7, TaskID := 30 },
       { ID := 2, Comment := "second", AuthorID := 8, TaskID := 30 },
       { ID := 3, Comment := "third", AuthorID := 7, TaskID := 31 }],
    TaskCommentCanRead := fun tc _ => (tc.TaskID == 30, none) }

/-- A migration environment for examples: nothing to decode, every reminder
15 minutes, an insert that succeeds, and a map walked from its last entry. -/
def exampleMigrationEnv : MigrationEnv :=
  { UnmarshalDecoder := fun _ => .ok [],
    ParseISO8601Duration := fun _ => 900000000000,
    InsertFromStructure := fun _ _ => none,
    rangeOrder := List.reverse }

/-- Three decoded rows: two of list `work`, between them one of list `home`;
the last row has no tags. -/
def exampleTickTickTasks : List tickTickTask :=
  [{ ProjectName := "work", Title := "report", TagsList := "urgent, boss", TaskID := 1 },
   { ProjectName := "home", Title := "dishes", TagsList := "chore", TaskID := 2 },
   { ProjectName := "work", Title := "mail", TagsList := "", TaskID := 3 }]

/-! ## Lemmas about the label query -/

theorem ofBool_selects (b : Bool) : (SQLBool.ofBool b).selects = b := by
  cases b <;> rfl

theorem sqlIn_selects_iff (col : Option Int) (vals : List Int) :
    (sqlIn col vals).selects = true ↔ ∃ c, col = some c ∧ c ∈ vals := by
  cases vals with
  | nil => simp [sqlIn, SQLBool.selects]
  | cons v vs =>
    cases col with
    | none => simp [sqlIn, SQLBool.selects]
    | some c =>
      show (SQLBool.ofBool ((v :: vs).contains c)).selects = true ↔ _
      rw [ofBool_selects]
      constructor
      · intro h
        exact ⟨c, rfl, by simpa using h⟩
      · rintro ⟨d, hd, hmd⟩
        cases hd
        simpa using hmd

theorem or_selects_iff (a b : SQLBool) :
    (a.or b).selects = true ↔ a.selects = true ∨ b.selects = true := by
  cases a <;> cases b <;> simp [SQLBool.or, SQLBool.selects]

theorem and_selects_iff (a b : SQLBool) :
    (a.and b).selects = true ↔ a.selects = true ∧ b.selects = true := by
  cases a <;> cases b <;> simp [SQLBool.and, SQLBool.selects]

theorem sqlEq_selects_iff (col : Option Int) (v : Int) :
    (sqlEq col v).selects = true ↔ col = some v := by
  cases col with
  | none => simp [sqlEq, SQLBool.selects]
  | some c => by_cases h : c = v <;> simp [sqlEq, SQLBool.ofBool, SQLBool.selects, h]

theorem cond_selects_iff (uid : Int) (ids : List Int) (lid : Int) (s : Label)
    (olt : Option LabelTask) :
    (hasAccessToLabelCond uid ids lid (s, olt)).selects = true ↔
      s.ID = lid ∧ (s.CreatedByID = uid ∨ ∃ lt, olt = some lt ∧ lt.TaskID ∈ ids) := by
  unfold hasAccessToLabelCond
  rw [and_selects_iff, or_selects_iff, or_selects_iff, sqlEq_selects_iff, sqlEq_selects_iff,
    sqlIn_selects_iff]
  simp only [sqlNeNull, SQLBool.selects, Option.some.injEq, Bool.false_eq_true, false_or]
  constructor
  · rintro ⟨h, h2⟩
    refine ⟨h2, h.imp id ?_⟩
    rintro ⟨c, hc, hm⟩
    cases olt with
    | none => simp at hc
    | some lt => exact ⟨lt, rfl, by simp at hc; rw [hc]; exact hm⟩
  · rintro ⟨h2, h⟩
    refine ⟨h.imp id ?_, h2⟩
    rintro ⟨lt, rfl, hm⟩
    exact ⟨lt.TaskID, rfl, hm⟩

theorem mem_join_iff (x : Engine) (s : Label) (olt : Option LabelTask) :
    (s, olt) ∈ labelsLeftJoinLabelTask x ↔
      s ∈ x.labels ∧
        ((olt = none ∧ ∀ lt ∈ x.label_task, lt.LabelID ≠ s.ID) ∨
          ∃ lt, olt = some lt ∧ lt ∈ x.label_task ∧ lt.LabelID = s.ID) := by
  unfold labelsLeftJoinLabelTask
  rw [List.mem_flatMap]
  constructor
  · rintro ⟨l, hl, hrow⟩
    cases hf : x.label_task.filter (fun lt => lt.LabelID == l.ID) with
    | nil =>
      rw [hf] at hrow
      simp at hrow
      obtain ⟨rfl, rfl⟩ := hrow
      refine ⟨hl, Or.inl ⟨rfl, ?_⟩⟩
      intro lt hlt heq
      have : lt ∈ x.label_task.filter (fun lt => lt.LabelID == s.ID) := by
        simp [List.mem_filter, hlt, heq]
      rw [hf] at this
      simp at this
    | cons a as =>
      rw [hf] at hrow
      simp only [List.mem_map, Prod.mk.injEq] at hrow
      obtain ⟨r, hr, rfl, rfl⟩ := hrow
      rw [← hf] at hr
      simp [List.mem_filter] at hr
      exact ⟨hl, Or.inr ⟨r, rfl, hr.1, hr.2⟩⟩
  · rintro ⟨hs, h⟩
    refine ⟨s, hs, ?_⟩
    rcases h with ⟨rfl, hnone⟩ | ⟨lt, rfl, hlt, heq⟩
    · have hf : x.label_task.filter (fun lt => lt.LabelID == s.ID) = [] := by
        simp [List.filter_eq_nil_iff]
        exact hnone
      rw [hf]
      simp
    · have hm : lt ∈ x.label_task.filter (fun lt => lt.LabelID == s.ID) := by
        simp [List.mem_filter, hlt, heq]
      cases hf : x.label_task.filter (fun lt => lt.LabelID == s.ID) with
      | nil => rw [hf] at hm; simp at hm
      | cons a as =>
        rw [hf] at hm
        simp only [List.mem_map, Prod.mk.injEq]
        exact ⟨lt, hm, trivial, rfl⟩

theorem hasAccessToLabelExist_ok (x : Engine) (uid : Int) (ids : List Int) (lid : Int)
    (hex : x.labelExistErr = none) :
    ∃ has, hasAccessToLabelExist x uid ids lid = .ok has ∧
      (has = true ↔ ∃ s ∈ x.labels, s.ID = lid ∧
        (s.CreatedByID = uid ∨
          ∃ lt ∈ x.label_task, lt.LabelID = s.ID ∧ lt.TaskID ∈ ids)) := by
  unfold hasAccessToLabelExist
  rw [hex]
  refine ⟨_, rfl, ?_⟩
  rw [List.any_eq_true]
  constructor
  · rintro ⟨⟨s, olt⟩, hmem, hsel⟩
    rw [mem_join_iff] at hmem
    rw [cond_selects_iff] at hsel
    obtain ⟨hs, hrow⟩ := hmem
    obtain ⟨hid, hacc⟩ := hsel
    refine ⟨s, hs, hid, ?_⟩
    rcases hacc with hown | ⟨lt, rfl, hin⟩
    · exact Or.inl hown
    · rcases hrow with ⟨hnone, _⟩ | ⟨lt', hsome, hlt, heq⟩
      · cases hnone
      · cases hsome
        exact Or.inr ⟨lt, hlt, heq, hin⟩
  · rintro ⟨s, hs, hid, hacc⟩
    rcases hacc with hown | ⟨lt, hlt, heq, hin⟩
    · by_cases hatt : ∃ lt ∈ x.label_task, lt.LabelID = s.ID
      · obtain ⟨lt, hlt, heq⟩ := hatt
        refine ⟨(s, some lt), ?_, ?_⟩
        · rw [mem_join_iff]
          exact ⟨hs, Or.inr ⟨lt, rfl, hlt, heq⟩⟩
        · rw [cond_selects_iff]
          exact ⟨hid, Or.inl hown⟩
      · refine ⟨(s, none), ?_, ?_⟩
        · rw [mem_join_iff]
          refine ⟨hs, Or.inl ⟨rfl, ?_⟩⟩
          intro lt hlt heq
          exact hatt ⟨lt, hlt, heq⟩
        · rw [cond_selects_iff]
          exact ⟨hid, Or.inl hown⟩
    · refine ⟨(s, some lt), ?_, ?_⟩
      · rw [mem_join_iff]
        exact ⟨hs, Or.inr ⟨lt, rfl, hlt, heq⟩⟩
      · rw [cond_selects_iff]
        exact ⟨hid, Or.inr ⟨lt, rfl, hin⟩⟩

/-- What `CanRead` decides, in terms of the tables. -/
theorem CanRead_eq_true_iff (x : Engine) (l : Label) (u : User) :
    l.CanRead x u = true ↔
      ∃ ids, x.getUserTaskIDs u = .ok ids ∧ x.labelExistErr = none ∧
        ∃ s ∈ x.labels, s.ID = l.ID ∧
          (s.CreatedByID = u.ID ∨
            ∃ lt ∈ x.label_task, lt.LabelID = s.ID ∧ lt.TaskID ∈ ids) := by
  simp only [Label.CanRead, Label.hasAccessToLabel, getUserForRights]
  cases htasks : x.getUserTaskIDs u with
  | error e => simp
  | ok ids =>
    cases hex : x.labelExistErr with
    | some e =>
      simp [hasAccessToLabelExist, hex]
    | none =>
      obtain ⟨has, hok, hiff⟩ := hasAccessToLabelExist_ok x u.ID ids l.ID hex
      simp only [hok, hiff]
      constructor
      · intro h
        exact ⟨ids, rfl, trivial, h⟩
      · rintro ⟨ids', hids, _, h⟩
        cases hids
        exact h

/-- What `isLabelOwner` decides, in terms of the label lookup. -/
theorem isLabelOwner_eq_true_iff (x : Engine) (l : Label) (u : User) :
    l.isLabelOwner x u = true ↔
      ∃ lorig, getLabelByIDSimple x l.ID = .ok lorig ∧ lorig.CreatedByID = u.ID := by
  simp only [Label.isLabelOwner, getUserForRights]
  cases h : getLabelByIDSimple x l.ID with
  | error e => simp
  | ok lorig => simp

/-- The label lookup succeeds exactly when the engine runs the query and the
table has a row of that id; it returns the first such row. -/
theorem getLabelByIDSimple_eq_ok_iff (x : Engine) (labelID : Int) (lorig : Label) :
    getLabelByIDSimple x labelID = .ok lorig ↔
      x.labelGetErr = none ∧ x.labels.find? (fun l => l.ID == labelID) = some lorig := by
  unfold getLabelByIDSimple
  cases x.labelGetErr with
  | some e => simp
  | none =>
    cases x.labels.find? (fun l => l.ID == labelID) with
    | none => simp
    | some l => simp

/-- With pairwise distinct ids, the first row of a given id is the only one. -/
theorem find_label_of_mem (labels : List Label) (l : Label)
    (hpk : (labels.map (·.ID)).Nodup) (hl : l ∈ labels) :
    labels.find? (fun s => s.ID == l.ID) = some l := by
  induction labels with
  | nil => cases hl
  | cons a as ih =>
    rw [List.map_cons, List.nodup_cons] at hpk
    rcases List.mem_cons.mp hl with rfl | hmem
    · simp
    · have hne : a.ID ≠ l.ID := by
        intro heq
        apply hpk.1
        rw [heq]
        exact List.mem_map_of_mem _ hmem
      rw [List.find?_cons]
      have : (a.ID == l.ID) = false := by simpa using hne
      rw [this]
      exact ih hpk.2 hmem

/-- With pairwise distinct ids, two rows of one id are one row. -/
theorem label_eq_of_id_eq (labels : List Label) (l s : Label)
    (hpk : (labels.map (·.ID)).Nodup) (hl : l ∈ labels) (hs : s ∈ labels)
    (hid : s.ID = l.ID) : s = l := by
  have h1 := find_label_of_mem labels l hpk hl
  have h2 := find_label_of_mem labels s hpk hs
  rw [hid] at h2
  rw [h1] at h2
  exact (Option.some.inj h2).symm

/-- For a stored label with a unique id, `CanRead` in terms of that label. -/
theorem label_CanRead_iff_lemma (x : Engine) (l : Label) (u : User)
    (ids : List Int) (hpk : (x.labels.map (·.ID)).Nodup) (hl : l ∈ x.labels)
    (htasks : x.getUserTaskIDs u = .ok ids) (hex : x.labelExistErr = none) :
    l.CanRead x u = true ↔
      (l.CreatedByID = u.ID ∨
        ∃ lt ∈ x.label_task, lt.LabelID = l.ID ∧ lt.TaskID ∈ ids) := by
  rw [CanRead_eq_true_iff]
  constructor
  · rintro ⟨ids', hids, _, s, hs, hid, hacc⟩
    rw [htasks] at hids
    cases hids
    have hsl : s = l := label_eq_of_id_eq x.labels l s hpk hl hs hid
    subst hsl
    exact hacc
  · intro hacc
    exact ⟨ids, htasks, hex, l, hl, rfl, hacc⟩


/-! ## Lemmas about namespaces -/

theorem le_maxNamespaceID (ns : List Namespace) (m : Namespace) (hm : m ∈ ns) :
    m.ID ≤ maxNamespaceID ns := by
  induction ns with
  | nil => cases hm
  | cons a as ih =>
    rcases List.mem_cons.mp hm with rfl | h
    · exact le_max_left _ _
    · exact le_trans (ih h) (le_max_right _ _)

theorem find_fresh_namespace (ns : List Namespace) (created : Namespace)
    (hfresh : created.ID = maxNamespaceID ns + 1) :
    (ns ++ [created]).find? (fun m => m.ID == created.ID) = some created := by
  have hnone : ns.find? (fun m => m.ID == created.ID) = none := by
    rw [List.find?_eq_none]
    intro m hm hp
    have hle := le_maxNamespaceID ns m hm
    have heq : m.ID = created.ID := by simpa using hp
    omega
  rw [List.find?_append, hnone]
  simp

/-- The creator of a stored namespace has level `Admin` on it. -/
theorem namespaceEffectiveLevel_owner (x : Engine) (n : Namespace) (u : User)
    (hfind : x.namespaces.find? (fun m => m.ID == n.ID) = some n) (hown : n.OwnerID = u.ID) :
    namespaceEffectiveLevel x n.ID u = PermissionLevel.Admin := by
  simp [namespaceEffectiveLevel, hfind, hown]

/-- What a successful `Namespace.Create` did. -/
theorem Namespace_Create_ok (x : Engine) (n : Namespace) (doer : User) (x' : Engine)
    (n' : Namespace) (h : Namespace.Create x n doer = .ok (x', n')) :
    n'.OwnerID = doer.ID ∧ n'.ID = maxNamespaceID x.namespaces + 1 ∧
      x'.namespaces = x.namespaces ++ [n'] := by
  unfold Namespace.Create at h
  split at h
  · cases h
  · split at h
    · cases h
    · split at h
      · cases h
      · rename_i owner hfind
        have hid : owner.ID = doer.ID := by
          have := List.find?_some hfind
          simpa using this
        simp only [Except.ok.injEq, Prod.mk.injEq] at h
        obtain ⟨hx, hn⟩ := h
        subst hx hn
        exact ⟨hid, rfl, rfl⟩

/-! ## Lemmas about the credential check -/

/-- The user lookup succeeds exactly when the engine runs the query and some
row matches; it returns the first matching row, e-mail address cleared. -/
theorem getUserByUsernameOrEmail_eq_ok_iff (x : Engine) (name : String) (user : User) :
    getUserByUsernameOrEmail x name = .ok user ↔
      x.userGetErr = none ∧
        ∃ stored, x.users.find? (matchesUsernameOrEmail name) = some stored ∧
          user = { stored with Email := "" } := by
  unfold getUserByUsernameOrEmail
  cases x.userGetErr with
  | some e => simp
  | none =>
    cases x.users.find? (matchesUsernameOrEmail name) with
    | none => simp
    | some s =>
      simp only [Except.ok.injEq, true_and, Option.some.injEq, exists_eq_left']
      exact eq_comm

/-- With both fields of the login filled in, the check starts at the lookup. -/
theorem CheckUserCredentials_of_nonempty (x : Engine) (compare : CompareHashAndPassword)
    (u : Login) (hU : u.Username ≠ "") (hP : u.Password ≠ "") :
    CheckUserCredentials x compare u =
      match getUserByUsernameOrEmail x u.Username with
      | .error _ => (none, some Error.ErrWrongUsernameOrPassword)
      | .ok user =>
        if !user.IsActive then (some {}, some (Error.ErrEmailNotConfirmed user.ID))
        else
          match CheckUserPassword compare user u.Password with
          | some err => (none, some err)
          | none => (some user, none) := by
  unfold CheckUserCredentials
  have h : (u.Password == "" || u.Username == "") = false := by
    simp [hU, hP]
  rw [h]
  simp

/-- With a field of the login empty, the check ends before any lookup. -/
theorem CheckUserCredentials_of_empty (x : Engine) (compare : CompareHashAndPassword)
    (u : Login) (h : u.Username = "" ∨ u.Password = "") :
    CheckUserCredentials x compare u = (none, some Error.ErrNoUsernamePassword) := by
  unfold CheckUserCredentials
  have h' : (u.Password == "" || u.Username == "") = true := by
    rcases h with h | h <;> simp [h]
  rw [h']
  simp

/-- The password check passes exactly when bcrypt reports a match. -/
theorem CheckUserPassword_eq_none_iff (compare : CompareHashAndPassword) (user : User)
    (password : String) :
    CheckUserPassword compare user password = none ↔ compare user.Password password = none := by
  unfold CheckUserPassword
  cases compare user.Password password with
  | none => simp
  | some err => by_cases h : err = Error.ErrMismatchedHashAndPassword <;> simp [h]

/-- A login that ends with a user and no error, spelled out. -/
theorem CheckUserCredentials_success_iff (x : Engine) (compare : CompareHashAndPassword)
    (u : Login) (usr : User) :
    CheckUserCredentials x compare u = (some usr, none) ↔
      u.Username ≠ "" ∧ u.Password ≠ "" ∧ x.userGetErr = none ∧
        ∃ stored, x.users.find? (matchesUsernameOrEmail u.Username) = some stored ∧
          stored.IsActive = true ∧ compare stored.Password u.Password = none ∧
          usr = { stored with Email := "" } := by
  by_cases hU : u.Username = ""
  · rw [CheckUserCredentials_of_empty x compare u (Or.inl hU)]
    simp [hU]
  by_cases hP : u.Password = ""
  · rw [CheckUserCredentials_of_empty x compare u (Or.inr hP)]
    simp [hP]
  rw [CheckUserCredentials_of_nonempty x compare u hU hP]
  cases hget : getUserByUsernameOrEmail x u.Username with
  | error e =>
    have hno : ¬ (x.userGetErr = none ∧
        ∃ stored, x.users.find? (matchesUsernameOrEmail u.Username) = some stored) := by
      rintro ⟨herr, stored, hfind⟩
      have := (getUserByUsernameOrEmail_eq_ok_iff x u.Username { stored with Email := "" }).mpr
        ⟨herr, stored, hfind, rfl⟩
      rw [hget] at this
      cases this
    constructor
    · intro h
      simp at h
    · rintro ⟨_, _, herr, stored, hfind, _⟩
      exact absurd ⟨herr, stored, hfind⟩ hno
  | ok user =>
    obtain ⟨herr, stored, hfind, huser⟩ :=
      (getUserByUsernameOrEmail_eq_ok_iff x u.Username user).mp hget
    have hact : user.IsActive = stored.IsActive := by rw [huser]
    have hpw : user.Password = stored.Password := by rw [huser]
    cases hA : stored.IsActive with
    | false =>
      simp only [hact, hA, Bool.not_false, if_true]
      constructor
      · intro h
        simp at h
      · rintro ⟨_, _, _, stored', hfind', hact', _⟩
        rw [hfind] at hfind'
        cases hfind'
        rw [hA] at hact'
        cases hact'
    | true =>
      simp only [hact, hA, Bool.not_true, Bool.false_eq_true, if_false]
      cases hC : CheckUserPassword compare user u.Password with
      | some err =>
        constructor
        · intro h
          simp at h
        · rintro ⟨_, _, _, stored', hfind', _, hcmp, _⟩
          rw [hfind] at hfind'
          cases hfind'
          rw [← hpw] at hcmp
          rw [(CheckUserPassword_eq_none_iff compare user u.Password).mpr hcmp] at hC
          cases hC
      | none =>
        have hcmp := (CheckUserPassword_eq_none_iff compare user u.Password).mp hC
        rw [hpw] at hcmp
        constructor
        · intro h
          simp only [Prod.mk.injEq, Option.some.injEq, and_true] at h
          exact ⟨hU, hP, herr, stored, hfind, hA, hcmp, by rw [← h, huser]⟩
        · rintro ⟨_, _, _, stored', hfind', _, _, husr⟩
          rw [hfind] at hfind'
          cases hfind'
          rw [husr, huser]

/-! ## Lemmas about looking users up -/

/-- A bean that holds an id alone asks for that id, or for nothing when the id
is zero. -/
theorem userBeanCond_ID (id : Int) (row : User) :
    userBeanCond { ID := id } row = (id == 0 || row.ID == id) := by
  simp [userBeanCond]

/-- A bean that holds a username alone asks for that username. -/
theorem userBeanCond_Username (name : String) (row : User) :
    userBeanCond { Username := name } row = (name == "" || row.Username == name) := by
  simp [userBeanCond]

/-- What `getUser` returns for a pointer that is not nil. -/
theorem getUser_some (x : Engine) (u : User) (withEmail : Bool) :
    getUser x (some u) withEmail =
      .returned
        (match xGetUser x u with
        | .error err => (none, some err)
        | .ok none => (some {}, some (Error.ErrUserDoesNotExist u.ID))
        | .ok (some userOut) =>
          if withEmail then (some userOut, none)
          else (some { userOut with Email := "" }, none)) := by
  simp only [getUser]
  cases xGetUser x u with
  | error e => rfl
  | ok r =>
    cases r with
    | none => rfl
    | some row => cases withEmail <;> rfl

/-- A user that `getUser` returns without error is a stored row that satisfies
the bean, with the e-mail address cleared unless it was asked for. -/
theorem getUser_success (x : Engine) (u : User) (withEmail : Bool) (usr : User)
    (h : getUser x (some u) withEmail = .returned (some usr, none)) :
    ∃ row, x.userGetErr = none ∧ x.users.find? (userBeanCond u) = some row ∧
      usr = if withEmail then row else { row with Email := "" } := by
  rw [getUser_some] at h
  unfold xGetUser at h
  cases herr : x.userGetErr with
  | some e =>
    rw [herr] at h
    simp at h
  | none =>
    rw [herr] at h
    cases hfind : x.users.find? (userBeanCond u) with
    | none =>
      rw [hfind] at h
      simp at h
    | some row =>
      rw [hfind] at h
      refine ⟨row, rfl, rfl, ?_⟩
      cases withEmail <;> simp at h <;> simp [h]

/-! ## Lemmas about updating a user -/

/-- The user that leaves the check of the e-mail address has the id and the
username of the user that entered it. -/
theorem checkEmail_ok (x : Engine) (user theUser u : User)
    (h : UpdateUser.checkEmail x user theUser = .ok u) :
    u.ID = user.ID ∧ u.Username = user.Username := by
  unfold UpdateUser.checkEmail at h
  split at h
  · cases h
    exact ⟨rfl, rfl⟩
  · split at h
    · cases h
    · split at h
      · cases h
      · split at h
        · cases h
        · split at h
          · cases h
          · cases h
            exact ⟨rfl, rfl⟩

/-- The engine after the second half of `UpdateUser` is the engine before, or
the engine after the one `Update` statement, which is run for the id and with
the username that entered the second half. -/
theorem UpdateUser_finish_engine (x : Engine) (user theUser : User) :
    (UpdateUser.finish x user theUser).1 = x ∨
      ∃ u, u.ID = user.ID ∧ u.Username = user.Username ∧
        xUpdateUserCols x user.ID u = .ok (UpdateUser.finish x user theUser).1 := by
  unfold UpdateUser.finish
  dsimp only
  split
  · exact Or.inl rfl
  · rename_i u2 hemail
    obtain ⟨hid, hname⟩ := checkEmail_ok x _ theUser u2 hemail
    have hid' : u2.ID = user.ID := by
      rw [hid]
      split <;> rfl
    have hname' : u2.Username = user.Username := by
      rw [hname]
      split <;> rfl
    split
    · exact Or.inl rfl
    · split
      · exact Or.inl rfl
      · rename_i x' hx'
        right
        refine ⟨u2, hid', hname', ?_⟩
        rw [← hid', hx']
        split <;> rfl

/-- The engine after `UpdateUser` is the engine before, or the engine after
the one `Update` statement. -/
theorem UpdateUser_engine (x : Engine) (user : User) :
    (UpdateUser x user).1 = x ∨
      ∃ id u, xUpdateUserCols x id u = .ok (UpdateUser x user).1 := by
  unfold UpdateUser
  split
  · exact Or.inl rfl
  · exact Or.inl rfl
  · exact Or.inl rfl
  · split
    · exact Or.inl rfl
    · rename_i theUser _ _ u1 _
      rcases UpdateUser_finish_engine x u1 theUser with h | ⟨u, _, _, h⟩
      · exact Or.inl h
      · exact Or.inr ⟨_, u, h⟩

/-- The `Update` statement of `UpdateUser` writes no key and no password. -/
theorem xUpdateUserCols_passwords (x x' : Engine) (id : Int) (user : User)
    (h : xUpdateUserCols x id user = .ok x') :
    (x'.users.map fun u => (u.ID, u.Password)) = x.users.map fun u => (u.ID, u.Password) := by
  unfold xUpdateUserCols at h
  cases herr : x.userUpdateErr with
  | some e =>
    rw [herr] at h
    cases h
  | none =>
    rw [herr] at h
    simp only [Except.ok.injEq] at h
    subst h
    simp only [List.map_map]
    apply List.map_congr_left
    intro row _
    by_cases hid : row.ID = id <;> simp [hid]

/-- The user `models.GetUserByID` returns without error is a stored row of
that id. -/
theorem models_GetUserByID_ok (x : Engine) (id : Int) (theUser : User)
    (h : models.GetUserByID x id = (theUser, none)) :
    theUser ∈ x.users ∧ theUser.ID = id := by
  unfold models.GetUserByID at h
  by_cases hlt : id < 1
  · simp [hlt] at h
  · simp only [hlt, if_false] at h
    unfold models.GetUser xGetUser at h
    cases herr : x.userGetErr with
    | some e =>
      rw [herr] at h
      simp at h
    | none =>
      rw [herr] at h
      cases hfind : x.users.find? (userBeanCond { ID := id }) with
      | none =>
        rw [hfind] at h
        simp at h
      | some row =>
        rw [hfind] at h
        simp only [Prod.mk.injEq, and_true] at h
        subst h
        have hcond := List.find?_some hfind
        rw [userBeanCond_ID] at hcond
        have hne0 : id ≠ 0 := by omega
        simp [hne0] at hcond
        exact ⟨List.mem_of_find?_eq_some hfind, hcond⟩

/-- The engine after `models.UpdateUser` is the engine before, or the engine
after the one `Update` statement, which carries the stored password. -/
theorem models_UpdateUser_engine (x : Engine) (user : User) :
    (models.UpdateUser x user).1 = x ∨
      ∃ theUser u, theUser ∈ x.users ∧ theUser.ID = user.ID ∧
        u.Password = theUser.Password ∧
        xUpdateUserNonZero x user.ID u = .ok (models.UpdateUser x user).1 := by
  unfold models.UpdateUser
  split
  · exact Or.inl rfl
  · rename_i theUser hget
    obtain ⟨hmem, hid⟩ := models_GetUserByID_ok x user.ID theUser hget
    by_cases hU : (user.Username == "") = true
    · simp only [hU, if_true]
      split
      · exact Or.inl rfl
      · rename_i x' hx'
        right
        refine ⟨theUser, { user with Username := theUser.Username,
                                     Password := theUser.Password }, hmem, hid, rfl, ?_⟩
        rw [hx']
        split <;> rfl
    · have hU' : (user.Username == "") = false := by simpa using hU
      simp only [hU', Bool.false_eq_true, if_false]
      split
      · exact Or.inl rfl
      · rename_i x' hx'
        right
        refine ⟨theUser, { user with Password := theUser.Password }, hmem, hid, rfl, ?_⟩
        rw [hx']
        split <;> rfl

/-- A search finds the one element that satisfies the condition. -/
theorem find_eq_some_of_unique {α : Type} (p : α → Bool) (l : List α) (a : α)
    (ha : a ∈ l) (hp : p a = true) (huniq : ∀ b ∈ l, p b = true → b = a) :
    l.find? p = some a := by
  cases h : l.find? p with
  | none =>
    rw [List.find?_eq_none] at h
    exact absurd hp (h a ha)
  | some b =>
    have hb := List.mem_of_find?_eq_some h
    have hpb := List.find?_some h
    rw [huniq b hb hpb]

/-- Without a username supplied the check of the username hands on the stored
username. -/
theorem checkUsername_empty (x : Engine) (user theUser : User) (hname : user.Username = "") :
    UpdateUser.checkUsername x user theUser =
      .ok { user with Username := theUser.Username } := by
  unfold UpdateUser.checkUsername
  simp [hname]

/-- With a username supplied and an engine that runs the lookup, the check of
the username looks at the first row of that username. -/
theorem checkUsername_supplied (x : Engine) (user theUser : User) (hname : user.Username ≠ "")
    (herr : x.userGetErr = none) :
    UpdateUser.checkUsername x user theUser =
      match x.users.find? (userBeanCond { Username := user.Username }) with
      | none => .ok user
      | some row =>
        if row.ID != 0 && row.ID != user.ID then
          .error (.returned (none, some (Error.ErrUsernameExists row.ID user.Username)))
        else .ok user := by
  have hne : (user.Username == "") = false := by simpa using hname
  unfold UpdateUser.checkUsername
  simp only [hne, Bool.false_eq_true, if_false, GetUserByUsername, GetUser, getUser_some,
    xGetUser, herr]
  cases x.users.find? (userBeanCond { Username := user.Username }) with
  | none => simp [IsErrUserDoesNotExist]
  | some row => simp

/-- With an engine that fails on the lookup nothing is written. -/
theorem UpdateUser_engine_of_get_error (x : Engine) (user : User) (e : Error)
    (herr : x.userGetErr = some e) : (UpdateUser x user).1 = x := by
  unfold UpdateUser
  simp [GetUserWithEmail, getUser_some, xGetUser, herr]

/-- The usernames after the `Update` statement of `UpdateUser`. -/
theorem xUpdateUserCols_usernames (x x' : Engine) (id : Int) (user : User)
    (h : xUpdateUserCols x id user = .ok x') :
    x'.users.map (·.Username) =
      x.users.map fun row => if row.ID = id then user.Username else row.Username := by
  unfold xUpdateUserCols at h
  cases herr : x.userUpdateErr with
  | some e =>
    rw [herr] at h
    cases h
  | none =>
    rw [herr] at h
    simp only [Except.ok.injEq] at h
    subst h
    simp only [List.map_map]
    apply List.map_congr_left
    intro row _
    by_cases hid : row.ID = id <;> simp [hid]

/-- Writing to the rows of an id the username they have changes no username. -/
theorem usernames_same_after (users : List User) (id : Int) (name : String)
    (hsame : ∀ s ∈ users, s.ID = id → s.Username = name) :
    (users.map fun row => if row.ID = id then name else row.Username) =
      users.map (·.Username) := by
  apply List.map_congr_left
  intro row hrow
  by_cases hid : row.ID = id
  · simp [hid, hsame row hrow hid]
  · simp [hid]

/-- Writing a username to the rows of an id keeps usernames pairwise distinct
when every row that has the username has that id. -/
theorem usernames_nodup_after (users : List User) (id : Int) (name : String)
    (hpk : (users.map (·.ID)).Nodup) (huniq : (users.map (·.Username)).Nodup)
    (hholder : ∀ s ∈ users, s.Username = name → s.ID = id) :
    (users.map fun row => if row.ID = id then name else row.Username).Nodup := by
  apply List.Nodup.map_on
  · intro a ha b hb hab
    by_cases hai : a.ID = id
    · by_cases hbi : b.ID = id
      · exact List.inj_on_of_nodup_map hpk ha hb (hai.trans hbi.symm)
      · simp only [hai, hbi, if_true, if_false] at hab
        exact absurd (hholder b hb hab.symm) hbi
    · by_cases hbi : b.ID = id
      · simp only [hai, hbi, if_true, if_false] at hab
        exact absurd (hholder a ha hab) hai
      · simp only [hai, hbi, if_false] at hab
        exact List.inj_on_of_nodup_map huniq ha hb hab
  · exact List.Nodup.of_map _ hpk

/-- With an engine that runs the lookup, the check of the e-mail address can
fail with `ErrUserEmailExists` alone. -/
theorem checkEmail_error (x : Engine) (user theUser : User)
    (r : Outcome (Option User × Option Error)) (herr : x.userGetErr = none)
    (h : UpdateUser.checkEmail x user theUser = .error r) :
    ∃ uid, r = .returned (none, some (Error.ErrUserEmailExists uid user.Email)) := by
  unfold UpdateUser.checkEmail at h
  split at h
  · cases h
  · simp only [getUser_some, xGetUser, herr] at h
    cases hfind : x.users.find? (userBeanCond
        { Email := user.Email, Issuer := user.Issuer, Subject := user.Subject }) with
    | none =>
      rw [hfind] at h
      simp [IsErrUserDoesNotExist] at h
    | some row =>
      rw [hfind] at h
      simp only [if_true, Bool.false_eq_true, if_false] at h
      split at h
      · simp only [Except.error.injEq] at h
        exact ⟨row.ID, h.symm⟩
      · cases h

/-- With an engine that runs the lookup, the second half of `UpdateUser`
never fails with `ErrUsernameExists`. -/
theorem UpdateUser_finish_error (x : Engine) (user theUser : User) (uid : Int) (name : String)
    (herr : x.userGetErr = none) :
    (UpdateUser.finish x user theUser).2 ≠
      .returned (none, some (Error.ErrUsernameExists uid name)) := by
  unfold UpdateUser.finish
  dsimp only
  split
  · rename_i r hemail
    obtain ⟨uid', hr⟩ := checkEmail_error x _ theUser r herr hemail
    rw [hr]
    simp
  · split
    · simp
    · split
      · simp
      · split <;> simp

/-- What `UpdateUser` writes, on a table with pairwise distinct non-zero ids
and pairwise distinct usernames: nothing, or to the rows of the user's id a
username they already have (none was supplied), or a username that no row of
another id has (one was supplied). -/
theorem UpdateUser_engine_detail (x : Engine) (user : User)
    (hpk : (x.users.map (·.ID)).Nodup) (hid0 : ∀ u ∈ x.users, u.ID ≠ 0)
    (huniq : (x.users.map (·.Username)).Nodup) :
    (UpdateUser x user).1 = x ∨
      ∃ u, xUpdateUserCols x user.ID u = .ok (UpdateUser x user).1 ∧
        ((user.Username = "" ∧ ∀ s ∈ x.users, s.ID = user.ID → s.Username = u.Username) ∨
          (user.Username ≠ "" ∧ ∀ s ∈ x.users, s.Username = u.Username → s.ID = user.ID)) := by
  cases herr : x.userGetErr with
  | some e => exact Or.inl (UpdateUser_engine_of_get_error x user e herr)
  | none =>
    unfold UpdateUser
    simp only [GetUserWithEmail, getUser_some, xGetUser, herr]
    cases hfind : x.users.find? (userBeanCond { ID := user.ID }) with
    | none => exact Or.inl rfl
    | some t =>
      simp only [if_true]
      have ht : t ∈ x.users := List.mem_of_find?_eq_some hfind
      have htid : user.ID = 0 ∨ t.ID = user.ID := by
        have hcond := List.find?_some hfind
        rw [userBeanCond_ID] at hcond
        simpa using hcond
      by_cases hname : user.Username = ""
      · rw [checkUsername_empty x user t hname]
        simp only
        rcases UpdateUser_finish_engine x { user with Username := t.Username } t with
          h | ⟨u, _, hun, h⟩
        · exact Or.inl h
        · refine Or.inr ⟨u, h, Or.inl ⟨hname, ?_⟩⟩
          intro s hs hsid
          rw [hun]
          rcases htid with h0 | htid
          · exact absurd (hsid.trans h0) (hid0 s hs)
          · have hst : s = t := List.inj_on_of_nodup_map hpk hs ht (hsid.trans htid.symm)
            rw [hst]
      · rw [checkUsername_supplied x user t hname herr]
        cases hfind2 : x.users.find? (userBeanCond { Username := user.Username }) with
        | none =>
          simp only
          rcases UpdateUser_finish_engine x user t with h | ⟨u, _, hun, h⟩
          · exact Or.inl h
          · refine Or.inr ⟨u, h, Or.inr ⟨hname, ?_⟩⟩
            intro s hs hsname
            rw [List.find?_eq_none] at hfind2
            have := hfind2 s hs
            rw [userBeanCond_Username] at this
            rw [hun] at hsname
            simp [hsname] at this
        | some row =>
          simp only
          have hrow : row ∈ x.users := List.mem_of_find?_eq_some hfind2
          have hrname : row.Username = user.Username := by
            have hcond := List.find?_some hfind2
            rw [userBeanCond_Username] at hcond
            simpa [hname] using hcond
          by_cases hother : (row.ID != 0 && row.ID != user.ID) = true
          · rw [if_pos hother]
            exact Or.inl rfl
          · rw [if_neg hother]
            simp only
            have hrid : row.ID = user.ID := by
              have h0 := hid0 row hrow
              simp [h0] at hother
              exact hother
            rcases UpdateUser_finish_engine x user t with h | ⟨u, _, hun, h⟩
            · exact Or.inl h
            · refine Or.inr ⟨u, h, Or.inr ⟨hname, ?_⟩⟩
              intro s hs hsname
              have hsr : s = row :=
                List.inj_on_of_nodup_map huniq hs hrow
                  (hsname.trans (hun.trans hrname.symm))
              rw [hsr]
              exact hrid

/-! ## Lemmas about creating a user -/

/-- A bean that holds an e-mail address alone asks for that address. -/
theorem userBeanCond_Email (email : String) (row : User) :
    userBeanCond { Email := email } row = (email == "" || row.Email == email) := by
  simp [userBeanCond]

/-- The lookup of `CreateUser` when a row satisfies the bean. -/
theorem CreateUser_lookup_found (x : Engine) (bean row : User) (herr : x.userGetErr = none)
    (hfind : x.users.find? (userBeanCond bean) = some row) :
    models.CreateUser.lookup x bean = .ok (true, row) := by
  simp [models.CreateUser.lookup, models.GetUser, xGetUser, herr, hfind]

/-- The lookup of `CreateUser` when no row satisfies the bean. -/
theorem CreateUser_lookup_absent (x : Engine) (bean : User) (herr : x.userGetErr = none)
    (hfind : x.users.find? (userBeanCond bean) = none) :
    models.CreateUser.lookup x bean = .ok (false, {}) := by
  simp [models.CreateUser.lookup, models.GetUser, xGetUser, herr, hfind, IsErrUserDoesNotExist]

/-- A search succeeds when some element satisfies the condition. -/
theorem find_isSome_of_mem {α : Type} (p : α → Bool) (l : List α) (a : α)
    (ha : a ∈ l) (hp : p a = true) : ∃ b, l.find? p = some b := by
  cases h : l.find? p with
  | none =>
    rw [List.find?_eq_none] at h
    exact absurd hp (h a ha)
  | some b => exact ⟨b, rfl⟩

/-! ## Lemmas about task comments -/

/-- A page is part of the rows it is cut from. -/
theorem mem_of_mem_applyLimit {α : Type} (limit start : Int) (rows : List α) (a : α)
    (h : a ∈ applyLimit limit start rows) : a ∈ rows := by
  unfold applyLimit at h
  split at h
  · exact List.mem_of_mem_drop (List.mem_of_mem_take h)
  · split at h
    · exact List.mem_of_mem_take h
    · exact h

/-- Every comment the first query of `ReadAll` finds is a comment of the task
asked for. -/
theorem xFindTaskComments_TaskID (x : Engine) (taskID : Int) (search : String)
    (page perPage : Int) (comments : List TaskComment)
    (h : xFindTaskComments x taskID search page perPage = .ok comments) :
    ∀ c ∈ comments, c.TaskID = taskID := by
  unfold xFindTaskComments at h
  cases herr : x.commentFindErr with
  | some e =>
    rw [herr] at h
    cases h
  | none =>
    rw [herr] at h
    simp only [Except.ok.injEq] at h
    intro c hc
    rw [← h] at hc
    have hfiltered := mem_of_mem_applyLimit _ _ _ c hc
    have hcond := (List.mem_filter.mp hfiltered).2
    unfold readAllCond at hcond
    simp only [Bool.and_eq_true, beq_iff_eq] at hcond
    exact hcond.1

/-- The insert of a comment appends one row, which has the author, the task
and the text of the comment handed in. -/
theorem xInsertTaskComment_ok (x x' : Engine) (tc tc' : TaskComment)
    (h : xInsertTaskComment x tc = .ok (x', tc')) :
    tc'.AuthorID = tc.AuthorID ∧
      ∃ row, x'.task_comments = x.task_comments ++ [row] ∧ row.AuthorID = tc.AuthorID ∧
        row.TaskID = tc.TaskID ∧ row.Comment = tc.Comment := by
  unfold xInsertTaskComment at h
  cases herr : x.commentInsertErr with
  | some e =>
    rw [herr] at h
    cases h
  | none =>
    rw [herr] at h
    simp only [Except.ok.injEq, Prod.mk.injEq] at h
    obtain ⟨hx, htc⟩ := h
    subst hx htc
    exact ⟨rfl, _, rfl, rfl, rfl, rfl⟩

/-- The task lookup succeeds only when a task of the id is stored. -/
theorem GetTaskSimple_ok (x : Engine) (t task : Task) (h : GetTaskSimple x t = .ok task) :
    task ∈ x.tasks ∧ task.ID = t.ID := by
  unfold GetTaskSimple at h
  cases herr : x.taskGetErr with
  | some e =>
    rw [herr] at h
    cases h
  | none =>
    rw [herr] at h
    cases hfind : x.tasks.find? (fun s => s.ID == t.ID) with
    | none =>
      rw [hfind] at h
      cases h
    | some s =>
      rw [hfind] at h
      simp only [Except.ok.injEq] at h
      subst h
      have hp := List.find?_some hfind
      exact ⟨List.mem_of_find?_eq_some hfind, by simpa using hp⟩

/-! ## Lemmas about the order of strings -/

/-- Characters with the same number are the same character. -/
theorem char_eq_of_toNat_eq (a b : Char) (h : a.toNat = b.toNat) : a = b := by
  rw [← Char.ofNat_toNat a, ← Char.ofNat_toNat b, h]

/-- Two strings of which neither is less than the other are the same. -/
theorem lexLess_trichotomy (a b : List Char) (hab : lexLess a b = false)
    (hba : lexLess b a = false) : a = b := by
  induction a generalizing b with
  | nil =>
    cases b with
    | nil => rfl
    | cons y ys => simp [lexLess] at hab
  | cons x xs ih =>
    cases b with
    | nil => simp [lexLess] at hba
    | cons y ys =>
      simp only [lexLess] at hab hba
      by_cases h1 : x.toNat < y.toNat
      · simp [h1] at hab
      · by_cases h2 : y.toNat < x.toNat
        · simp [h2] at hba
        · simp only [h1, h2, if_false] at hab hba
          have hxy : x = y := char_eq_of_toNat_eq x y (by omega)
          rw [hxy, ih ys hab hba]

/-- Of two strings at most one is less than the other. -/
theorem lexLess_asymm (a b : List Char) (hab : lexLess a b = true) : lexLess b a = false := by
  induction a generalizing b with
  | nil =>
    cases b with
    | nil => simp [lexLess] at hab
    | cons y ys => simp [lexLess]
  | cons x xs ih =>
    cases b with
    | nil => simp [lexLess] at hab
    | cons y ys =>
      simp only [lexLess] at hab ⊢
      by_cases h1 : x.toNat < y.toNat
      · have h2 : ¬ y.toNat < x.toNat := by omega
        simp [h1, h2]
      · by_cases h2 : y.toNat < x.toNat
        · simp [h1, h2] at hab
        · simp only [h1, h2, if_false] at hab ⊢
          exact ih ys hab

/-- When `c` is less than `a`, every string is greater than `c` or less than
`a`. -/
theorem lexLess_between (c a b : List Char) (hca : lexLess c a = true) :
    lexLess c b = true ∨ lexLess b a = true := by
  induction c generalizing a b with
  | nil =>
    cases a with
    | nil => simp [lexLess] at hca
    | cons x xs =>
      cases b with
      | nil => exact Or.inr (by simp [lexLess])
      | cons y ys => exact Or.inl (by simp [lexLess])
  | cons z zs ih =>
    cases a with
    | nil => simp [lexLess] at hca
    | cons x xs =>
      cases b with
      | nil => exact Or.inr (by simp [lexLess])
      | cons y ys =>
        simp only [lexLess] at hca ⊢
        by_cases hzx : z.toNat < x.toNat
        · by_cases hzy : z.toNat < y.toNat
          · exact Or.inl (by simp [hzy])
          · have hyx : y.toNat < x.toNat := by omega
            exact Or.inr (by simp [hyx])
        · by_cases hxz : x.toNat < z.toNat
          · simp [hzx, hxz] at hca
          · simp only [hzx, hxz, if_false] at hca
            by_cases hzy : z.toNat < y.toNat
            · exact Or.inl (by simp [hzy])
            · by_cases hyz : y.toNat < z.toNat
              · have hyx : y.toNat < x.toNat := by omega
                exact Or.inr (by simp [hyx])
              · have hyx : ¬ y.toNat < x.toNat := by omega
                have hxy : ¬ x.toNat < y.toNat := by omega
                simp only [hzy, hyz, hyx, hxy, if_false]
                exact ih xs ys hca

/-- Strings with the same characters are the same string. -/
theorem string_eq_of_data_eq (a b : String) (h : a.data = b.data) : a = b := by
  cases a
  cases b
  simp only at h
  rw [h]

/-! ## Lemmas about the conversion of TickTick tasks -/

/-- The map has a project under a key exactly when the key is among the
titles. -/
theorem any_title_iff (ps : List ProjectWithTasksAndBuckets) (name : String) :
    ps.any (fun p => p.Project.Title == name) = true ↔
      name ∈ ps.map (·.Project.Title) := by
  rw [List.any_eq_true, List.mem_map]
  constructor
  · rintro ⟨p, hp, h⟩
    exact ⟨p, hp, by simpa using h⟩
  · rintro ⟨p, hp, h⟩
    exact ⟨p, hp, by simpa using h⟩

/-- The titles after a project was made for a name. -/
theorem ensureProject_titles (ps : List ProjectWithTasksAndBuckets) (name : String) :
    (ensureProject ps name).map (·.Project.Title) =
      if name ∈ ps.map (·.Project.Title) then ps.map (·.Project.Title)
      else ps.map (·.Project.Title) ++ [name] := by
  unfold ensureProject
  by_cases h : name ∈ ps.map (·.Project.Title)
  · rw [if_pos ((any_title_iff ps name).mpr h), if_pos h]
  · have hany : ¬ ps.any (fun p => p.Project.Title == name) = true :=
      fun hh => h ((any_title_iff ps name).mp hh)
    rw [if_neg hany, if_neg h]
    simp

/-- A project of the map after a project was made for a name was there
before, or is the new, empty project, made because the name was no title. -/
theorem mem_ensureProject (ps : List ProjectWithTasksAndBuckets) (name : String)
    (p : ProjectWithTasksAndBuckets) (hp : p ∈ ensureProject ps name) :
    p ∈ ps ∨
      (p.Project.Title = name ∧ p.Tasks = [] ∧ p.ChildProjects = [] ∧
        name ∉ ps.map (·.Project.Title)) := by
  unfold ensureProject at hp
  by_cases h : ps.any (fun p => p.Project.Title == name) = true
  · rw [if_pos h] at hp
    exact Or.inl hp
  · rw [if_neg h] at hp
    rw [List.mem_append, List.mem_singleton] at hp
    rcases hp with hp | hp
    · exact Or.inl hp
    · right
      rw [hp]
      exact ⟨rfl, rfl, rfl, fun hh => h ((any_title_iff ps name).mpr hh)⟩

/-- Appending a task changes no title. -/
theorem appendTask_titles (ps : List ProjectWithTasksAndBuckets) (name : String)
    (task : TaskWithComments) :
    (appendTask ps name task).map (·.Project.Title) = ps.map (·.Project.Title) := by
  unfold appendTask
  rw [List.map_map]
  apply List.map_congr_left
  intro p _
  by_cases h : p.Project.Title = name <;> simp [h]

/-- Appending a task under a key that is the title of exactly one project
makes the number of all tasks one greater. -/
theorem appendTask_count (ps : List ProjectWithTasksAndBuckets) (name : String)
    (task : TaskWithComments) (hnodup : (ps.map (·.Project.Title)).Nodup)
    (hmem : name ∈ ps.map (·.Project.Title)) :
    ((appendTask ps name task).map (·.Tasks.length)).sum =
      (ps.map (·.Tasks.length)).sum + 1 := by
  induction ps with
  | nil => simp at hmem
  | cons p ps ih =>
    rw [List.map_cons, List.nodup_cons] at hnodup
    by_cases hp : p.Project.Title = name
    · have hrest : appendTask ps name task = ps := by
        unfold appendTask
        conv_rhs => rw [← List.map_id ps]
        apply List.map_congr_left
        intro q hq
        have hne : q.Project.Title ≠ name := by
          intro hq'
          apply hnodup.1
          rw [hp, ← hq']
          exact List.mem_map_of_mem _ hq
        simp [hne]
      have hcons : appendTask (p :: ps) name task =
          { p with Tasks := p.Tasks ++ [task] } :: appendTask ps name task := by
        simp [appendTask, hp]
      rw [hcons, hrest]
      simp only [List.map_cons, List.sum_cons, List.length_append, List.length_singleton]
      omega
    · have hmem' : name ∈ ps.map (·.Project.Title) := by
        rw [List.map_cons, List.mem_cons] at hmem
        rcases hmem with h | h
        · exact absurd h.symm hp
        · exact h
      have hcons : appendTask (p :: ps) name task = p :: appendTask ps name task := by
        simp [appendTask, hp]
      rw [hcons]
      simp only [List.map_cons, List.sum_cons]
      rw [ih hnodup.2 hmem']
      omega

/-- One turn of the loop keeps the map what it should be. -/
theorem ProjectsOf_step (done : List tickTickTask) (ps : List ProjectWithTasksAndBuckets)
    (t : tickTickTask) (h : ProjectsOf done ps) :
    ProjectsOf (done ++ [t]) (addToProjects ps t) := by
  obtain ⟨hnodup, hnames, htasks, hcount⟩ := h
  have htitles : (addToProjects ps t).map (·.Project.Title) =
      if t.ProjectName ∈ ps.map (·.Project.Title) then ps.map (·.Project.Title)
      else ps.map (·.Project.Title) ++ [t.ProjectName] := by
    unfold addToProjects
    rw [appendTask_titles, ensureProject_titles]
  have hnodup' : ((ensureProject ps t.ProjectName).map (·.Project.Title)).Nodup := by
    rw [ensureProject_titles]
    by_cases hin : t.ProjectName ∈ ps.map (·.Project.Title)
    · rw [if_pos hin]
      exact hnodup
    · rw [if_neg hin]
      rw [List.nodup_append]
      refine ⟨hnodup, List.nodup_singleton _, ?_⟩
      intro a ha hb
      rw [List.mem_singleton] at hb
      rw [hb] at ha
      exact hin ha
  have hmem' : t.ProjectName ∈ (ensureProject ps t.ProjectName).map (·.Project.Title) := by
    rw [ensureProject_titles]
    by_cases hin : t.ProjectName ∈ ps.map (·.Project.Title)
    · rw [if_pos hin]
      exact hin
    · rw [if_neg hin]
      simp
  refine ⟨?_, ?_, ?_, ?_⟩
  · unfold addToProjects
    rw [appendTask_titles]
    exact hnodup'
  · intro name
    rw [htitles]
    constructor
    · intro hname
      by_cases hin : t.ProjectName ∈ ps.map (·.Project.Title)
      · rw [if_pos hin] at hname
        obtain ⟨s, hs, hsn⟩ := (hnames name).mp hname
        exact ⟨s, List.mem_append_left _ hs, hsn⟩
      · rw [if_neg hin, List.mem_append, List.mem_singleton] at hname
        rcases hname with hname | hname
        · obtain ⟨s, hs, hsn⟩ := (hnames name).mp hname
          exact ⟨s, List.mem_append_left _ hs, hsn⟩
        · exact ⟨t, by simp, hname.symm⟩
    · rintro ⟨s, hs, hsn⟩
      rw [List.mem_append, List.mem_singleton] at hs
      by_cases hin : t.ProjectName ∈ ps.map (·.Project.Title)
      · rw [if_pos hin]
        rcases hs with hs | hs
        · exact (hnames name).mpr ⟨s, hs, hsn⟩
        · rw [← hsn, hs]
          exact hin
      · rw [if_neg hin, List.mem_append, List.mem_singleton]
        rcases hs with hs | hs
        · exact Or.inl ((hnames name).mpr ⟨s, hs, hsn⟩)
        · right
          rw [← hsn, hs]
  · intro q hq
    unfold addToProjects appendTask at hq
    rw [List.mem_map] at hq
    obtain ⟨p, hp, hpq⟩ := hq
    have hbase : p.Tasks =
        (done.filter fun s => s.ProjectName == p.Project.Title).map convertTask ∧
          p.ChildProjects = [] := by
      rcases mem_ensureProject ps t.ProjectName p hp with hold | ⟨htitle, hempty, hchild, hnew⟩
      · exact htasks p hold
      · refine ⟨?_, hchild⟩
        rw [hempty]
        have hnone : (done.filter fun s => s.ProjectName == p.Project.Title) = [] := by
          rw [List.filter_eq_nil_iff]
          intro s hs hsn
          apply hnew
          rw [← htitle]
          exact (hnames _).mpr ⟨s, hs, by simpa using hsn⟩
        rw [hnone]
        rfl
    by_cases hname : p.Project.Title = t.ProjectName
    · simp only [hname, beq_self_eq_true, if_true] at hpq
      rw [← hpq]
      simp only [List.filter_append, List.map_append]
      refine ⟨?_, hbase.2⟩
      rw [hbase.1, hname]
      simp
    · have hne : (p.Project.Title == t.ProjectName) = false := by simpa using hname
      simp only [hne, Bool.false_eq_true, if_false] at hpq
      rw [← hpq]
      refine ⟨?_, hbase.2⟩
      rw [hbase.1]
      have hne' : (t.ProjectName == p.Project.Title) = false := by
        simpa using fun h => hname h.symm
      simp [List.filter_append, hne']
  · unfold addToProjects
    rw [appendTask_count _ _ _ hnodup' hmem']
    have hsame : ((ensureProject ps t.ProjectName).map (·.Tasks.length)).sum =
        (ps.map (·.Tasks.length)).sum := by
      unfold ensureProject
      split
      · rfl
      · simp
    rw [hsame, hcount]
    simp

/-- The map `projects` after the loop over all tasks. -/
theorem ProjectsOf_foldl (tasks : List tickTickTask) :
    ProjectsOf tasks (tasks.foldl addToProjects []) := by
  induction tasks using List.reverseRecOn with
  | nil =>
    refine ⟨List.nodup_nil, ?_, ?_, rfl⟩
    · intro name
      simp
    · intro p hp
      cases hp
  | append_singleton done t ih =>
    rw [List.foldl_append]
    exact ProjectsOf_step done _ t ih

/-- Sorting by title keeps the projects and puts the titles, when they are
pairwise distinct, in strictly ascending order. -/
theorem sortByTitle_sorted (l : List ProjectWithTasksAndBuckets)
    (hnodup : (l.map (·.Project.Title)).Nodup) :
    (sortByTitle l).Perm l ∧
      ((sortByTitle l).map (·.Project.Title)).Pairwise (fun a b => stringLess a b = true) := by
  have hperm : (sortByTitle l).Perm l := List.perm_insertionSort _ l
  refine ⟨hperm, ?_⟩
  haveI : IsTotal ProjectWithTasksAndBuckets
      (fun a b => stringLess b.Project.Title a.Project.Title = false) :=
    ⟨fun a b => by
      cases h : stringLess b.Project.Title a.Project.Title with
      | false => exact Or.inl rfl
      | true => exact Or.inr (lexLess_asymm _ _ h)⟩
  haveI : IsTrans ProjectWithTasksAndBuckets
      (fun a b => stringLess b.Project.Title a.Project.Title = false) :=
    ⟨fun a b c hab hbc => by
      cases h : stringLess c.Project.Title a.Project.Title with
      | false => rfl
      | true =>
        rcases lexLess_between _ _ b.Project.Title.data h with h1 | h1
        · have : stringLess c.Project.Title b.Project.Title = true := h1
          rw [hbc] at this
          cases this
        · have : stringLess b.Project.Title a.Project.Title = true := h1
          rw [hab] at this
          cases this⟩
  have hsorted : (sortByTitle l).Pairwise
      (fun a b => stringLess b.Project.Title a.Project.Title = false) :=
    List.sorted_insertionSort _ l
  have hnodup' : ((sortByTitle l).map (·.Project.Title)).Nodup :=
    (List.Perm.nodup_iff (hperm.map _)).mpr hnodup
  rw [List.pairwise_map]
  have hne : (sortByTitle l).Pairwise (fun a b => a.Project.Title ≠ b.Project.Title) := by
    have := hnodup'
    unfold List.Nodup at this
    rw [List.pairwise_map] at this
    exact this
  refine (hsorted.and hne).imp ?_
  rintro a b ⟨hle, hab⟩
  cases h : stringLess a.Project.Title b.Project.Title with
  | true => rfl
  | false =>
    exact absurd (string_eq_of_data_eq _ _ (lexLess_trichotomy _ _ h hle)) hab

/-! ## Lemmas about splitting the column of tags -/

/-- A part in which the separator `", "` does not occur is read to its end. -/
theorem splitAux_last (t acc : List Char) (hno : occursIn [',', ' '] t = false) :
    splitAux [',', ' '] t 0 acc = [acc.reverse ++ t] := by
  induction t generalizing acc with
  | nil => simp [splitAux]
  | cons c cs ih =>
    simp only [occursIn, Bool.or_eq_false_iff] at hno
    rw [splitAux, if_neg (by rw [hno.1]; simp), ih (c :: acc) hno.2]
    simp

/-- A part in which the separator `", "` does not occur ends where the
separator after it starts, and the reading goes on behind the separator. -/
theorem splitAux_part (t r acc : List Char) (hno : occursIn [',', ' '] t = false) :
    splitAux [',', ' '] (t ++ [',', ' '] ++ r) 0 acc =
      (acc.reverse ++ t) :: splitAux [',', ' '] r 0 [] := by
  induction t generalizing acc with
  | nil => simp [splitAux, List.isPrefixOf]
  | cons c cs ih =>
    simp only [occursIn, Bool.or_eq_false_iff] at hno
    have hpre : List.isPrefixOf [',', ' '] (c :: (cs ++ [',', ' '] ++ r)) = false := by
      cases cs with
      | nil => simp [List.isPrefixOf]
      | cons c2 cs2 =>
        have h1 := hno.1
        simp only [List.isPrefixOf, Bool.and_true] at h1
        simp only [List.isPrefixOf, List.cons_append, Bool.and_true]
        exact h1
    rw [List.cons_append, List.cons_append, splitAux, if_neg (by rw [hpre]; simp),
      ih (c :: acc) hno.2]
    simp

/-- Splitting the tags joined by `", "` gives the tags back, when there is at
least one tag and the separator occurs in none. -/
theorem splitAux_joinChars (tags : List (List Char)) (hne : tags ≠ [])
    (hno : ∀ tag ∈ tags, occursIn [',', ' '] tag = false) :
    splitAux [',', ' '] (joinChars [',', ' '] tags) 0 [] = tags := by
  induction tags with
  | nil => exact absurd rfl hne
  | cons a l ih =>
    cases l with
    | nil =>
      rw [joinChars, splitAux_last a [] (hno a (List.mem_cons_self _ _))]
      simp
    | cons b l =>
      rw [joinChars, splitAux_part a _ [] (hno a (List.mem_cons_self _ _)),
        ih (List.cons_ne_nil _ _) (fun tag htag => hno tag (List.mem_cons_of_mem _ htag))]
      simp

/-- The labels of a converted task are its tags, one label each. -/
theorem convertTask_Labels (t : tickTickTask) :
    (convertTask t).Task.Labels = t.Tags.map fun tag => ({ Title := tag } : Label) := by
  unfold convertTask
  dsimp only
  split <;> split <;> rfl

/-- The tags of a prepared task are the parts of its column of tags. -/
theorem prepare_Tags (env : MigrationEnv) (t : tickTickTask) :
    (Migrate.prepare env t).Tags = stringsSplit t.TagsList ", " := by
  unfold Migrate.prepare
  dsimp only
  split <;> split <;> rfl

/-! ## Claims about `pkg/models/label_rights.go` -/

/-- C1: `CanUpdate` and `CanDelete` of a label return the same value for every
label and user; that value is true exactly when the lookup of the label by id
finds a stored label whose `CreatedByID` is the user's id (with an engine that
runs the lookup: exactly when the row of table `labels` with that id has that
creator); replacing the tasks the user can read and the attachments of labels
to tasks never changes it. -/
theorem label_CanUpdate_CanDelete_owner_only (x : Engine) (l : Label) (u : User) :
    l.CanUpdate x u = l.CanDelete x u ∧
    (l.CanUpdate x u = true ↔
      ∃ lorig, getLabelByIDSimple x l.ID = .ok lorig ∧ lorig.CreatedByID = u.ID) ∧
    (x.labelGetErr = none →
      (l.CanUpdate x u = true ↔
        ∃ lorig, x.labels.find? (fun s => s.ID == l.ID) = some lorig ∧
          lorig.CreatedByID = u.ID)) ∧
    (∀ (tasks : User → Except Error (List Int)) (attached : List LabelTask),
      l.CanUpdate { x with getUserTaskIDs := tasks, label_task := attached } u =
        l.CanUpdate x u) := by
  refine ⟨rfl, isLabelOwner_eq_true_iff x l u, ?_, ?_⟩
  · intro hget
    show l.isLabelOwner x u = true ↔ _
    rw [isLabelOwner_eq_true_iff]
    constructor
    · rintro ⟨lorig, hok, hown⟩
      exact ⟨lorig, ((getLabelByIDSimple_eq_ok_iff x l.ID lorig).mp hok).2, hown⟩
    · rintro ⟨lorig, hfind, hown⟩
      exact ⟨lorig, (getLabelByIDSimple_eq_ok_iff x l.ID lorig).mpr ⟨hget, hfind⟩, hown⟩
  · intro tasks attached
    rfl

/-- Witness of C1: in the example store user 7 may update and delete label 1,
user 8 may not, and sharing task 30 changes neither. -/
theorem label_CanUpdate_CanDelete_owner_only_witness :
    urgentLabel.CanUpdate exampleEngine alice = true ∧
    urgentLabel.CanDelete exampleEngine alice = true ∧
    urgentLabel.CanUpdate exampleEngine bob = false ∧
    urgentLabel.CanUpdate sharedEngine bob = false := by
  have h := label_CanUpdate_CanDelete_owner_only exampleEngine urgentLabel alice
  have hb := label_CanUpdate_CanDelete_owner_only exampleEngine urgentLabel bob
  refine ⟨?_, ?_, ?_, ?_⟩
  · exact (h.2.2.1 rfl).mpr ⟨urgentLabel, by decide, by decide⟩
  · rw [← h.1]
    exact (h.2.2.1 rfl).mpr ⟨urgentLabel, by decide, by decide⟩
  · decide
  · exact (hb.2.2.2 (fun _ => .ok [30]) exampleEngine.label_task).trans (by decide)

/-- C2: for a stored label `l` (ids of table `labels` pairwise distinct), when
the task-id lookup returns the list `ids` and the existence query runs,
`CanRead` is true exactly when `l` was created by the user or `l` is attached
through `label_task` to a task whose id is in `ids`. -/
theorem label_CanRead_iff_creator_or_attached (x : Engine) (l : Label) (u : User)
    (ids : List Int) (hpk : (x.labels.map (·.ID)).Nodup) (hl : l ∈ x.labels)
    (htasks : x.getUserTaskIDs u = .ok ids) (hex : x.labelExistErr = none) :
    l.CanRead x u = true ↔
      (l.CreatedByID = u.ID ∨
        ∃ lt ∈ x.label_task, lt.LabelID = l.ID ∧ lt.TaskID ∈ ids) := by
  rw [CanRead_eq_true_iff]
  constructor
  · rintro ⟨ids', hids, _, s, hs, hid, hacc⟩
    have hsame : ids' = ids := by
      rw [htasks] at hids
      cases hids
      rfl
    have hsl : s = l := label_eq_of_id_eq x.labels l s hpk hl hs hid
    rw [hsame, hsl] at hacc
    exact hacc
  · intro hacc
    exact ⟨ids, htasks, hex, l, hl, rfl, hacc⟩

/-- Witness of C2: once task 30 is shared, user 8 reads label 1, which user 7
made and which is attached to task 30. -/
theorem label_CanRead_iff_creator_or_attached_witness :
    urgentLabel.CanRead sharedEngine bob = true ↔
      (urgentLabel.CreatedByID = bob.ID ∨
        ∃ lt ∈ sharedEngine.label_task, lt.LabelID = urgentLabel.ID ∧ lt.TaskID ∈ [30]) :=
  label_CanRead_iff_creator_or_attached sharedEngine urgentLabel bob [30]
    (by decide) (by decide) rfl rfl

/-- C3: owner supremacy.  For a label whose lookup by id finds a stored label
made by the user, `CanRead`, `CanCreate`, `CanUpdate` and `CanDelete` are all
true for that user, whatever tasks the user can read (none included) and
whatever the label is attached to (nothing included), provided the queries
run; and after a successful `Namespace.Create` the doer passes `CanRead`,
`CanUpdate` and `CanDelete` on the created namespace. -/
theorem owner_supremacy :
    (∀ (x : Engine) (l lorig : Label) (u : User) (ids : List Int),
      getLabelByIDSimple x l.ID = .ok lorig → lorig.CreatedByID = u.ID →
      x.getUserTaskIDs u = .ok ids → x.labelExistErr = none →
      l.CanRead x u = true ∧ l.CanCreate x u = true ∧
        l.CanUpdate x u = true ∧ l.CanDelete x u = true) ∧
    (∀ (x : Engine) (n : Namespace) (doer : User) (x' : Engine) (n' : Namespace),
      Namespace.Create x n doer = .ok (x', n') →
      n'.CanRead x' doer = true ∧ n'.CanUpdate x' doer = true ∧
        n'.CanDelete x' doer = true) := by
  constructor
  · intro x l lorig u ids hstored hown htasks hex
    have howner : l.isLabelOwner x u = true :=
      (isLabelOwner_eq_true_iff x l u).mpr ⟨lorig, hstored, hown⟩
    have hfind := ((getLabelByIDSimple_eq_ok_iff x l.ID lorig).mp hstored).2
    have hmem : lorig ∈ x.labels := List.mem_of_find?_eq_some hfind
    have hid : lorig.ID = l.ID := by
      have := List.find?_some hfind
      simpa using this
    refine ⟨?_, rfl, howner, howner⟩
    rw [CanRead_eq_true_iff]
    exact ⟨ids, htasks, hex, lorig, hmem, hid, Or.inl hown⟩
  · intro x n doer x' n' hcreate
    obtain ⟨hown, hid, hns⟩ := Namespace_Create_ok x n doer x' n' hcreate
    have hfind : x'.namespaces.find? (fun m => m.ID == n'.ID) = some n' := by
      rw [hns]
      exact find_fresh_namespace x.namespaces n' hid
    have hlevel := namespaceEffectiveLevel_owner x' n' doer hfind hown
    simp [Namespace.CanRead, Namespace.CanUpdate, Namespace.CanDelete, Namespace.Authorize,
      hlevel, PermissionLevel.rank, Capability.required]

/-- Witness of C3: user 8 made label 2, which is attached to no task, and reads
no task; user 7 creates a namespace in a store without grants. -/
theorem owner_supremacy_witness :
    (laterLabel.CanRead exampleEngine bob = true ∧ laterLabel.CanCreate exampleEngine bob = true ∧
      laterLabel.CanUpdate exampleEngine bob = true ∧
      laterLabel.CanDelete exampleEngine bob = true) ∧
    (homeNamespace.CanRead (namespaceEngine.insertNamespace homeNamespace) alice = true ∧
      homeNamespace.CanUpdate (namespaceEngine.insertNamespace homeNamespace) alice = true ∧
      homeNamespace.CanDelete (namespaceEngine.insertNamespace homeNamespace) alice = true) :=
  ⟨owner_supremacy.1 exampleEngine laterLabel laterLabel bob [] rfl rfl rfl rfl,
    owner_supremacy.2 namespaceEngine { Name := "Test", Description := "Lorem Ipsum" } alice
      (namespaceEngine.insertNamespace homeNamespace) homeNamespace rfl⟩

/-- C4: when no label of the id is stored, `CanRead`, `CanUpdate` and
`CanDelete` are false; when the label lookup returns an error `CanUpdate` and
`CanDelete` are false; when the task-id lookup or the existence query returns
an error `CanRead` is false. -/
theorem label_checks_fail_closed (x : Engine) (l : Label) (u : User) :
    ((∀ s ∈ x.labels, s.ID ≠ l.ID) →
      l.CanRead x u = false ∧ l.CanUpdate x u = false ∧ l.CanDelete x u = false) ∧
    (∀ e, getLabelByIDSimple x l.ID = .error e →
      l.CanUpdate x u = false ∧ l.CanDelete x u = false) ∧
    (∀ e, x.getUserTaskIDs (getUserForRights u) = .error e → l.CanRead x u = false) ∧
    (∀ e ids, hasAccessToLabelExist x (getUserForRights u).ID ids l.ID = .error e →
      l.CanRead x u = false) := by
  refine ⟨?_, ?_, ?_, ?_⟩
  · intro habsent
    have hread : l.CanRead x u = false := by
      rw [← Bool.not_eq_true, CanRead_eq_true_iff]
      rintro ⟨_, _, _, s, hs, hid, _⟩
      exact habsent s hs hid
    have hown : l.isLabelOwner x u = false := by
      rw [← Bool.not_eq_true, isLabelOwner_eq_true_iff]
      rintro ⟨lorig, hok, _⟩
      have hfind := ((getLabelByIDSimple_eq_ok_iff x l.ID lorig).mp hok).2
      have hmem := List.mem_of_find?_eq_some hfind
      have hp := List.find?_some hfind
      exact habsent lorig hmem (by simpa using hp)
    exact ⟨hread, hown, hown⟩
  · intro e herr
    have hown : l.isLabelOwner x u = false := by
      simp only [Label.isLabelOwner, herr]
    exact ⟨hown, hown⟩
  · intro e herr
    simp only [Label.CanRead, Label.hasAccessToLabel, herr]
  · intro e ids herr
    have hex : ∃ e', x.labelExistErr = some e' := by
      cases h : x.labelExistErr with
      | none => simp [hasAccessToLabelExist, h] at herr
      | some e' => exact ⟨e', rfl⟩
    obtain ⟨e', he'⟩ := hex
    rw [← Bool.not_eq_true, CanRead_eq_true_iff]
    rintro ⟨_, _, hnone, _⟩
    rw [he'] at hnone
    cases hnone

/-- Witness of C4: no label 99 is stored, so nobody passes a check on it; with
a failing engine nobody passes a check on label 1, not even its creator. -/
theorem label_checks_fail_closed_witness :
    (({ ID := 99 } : Label).CanRead sharedEngine alice = false ∧
      ({ ID := 99 } : Label).CanUpdate sharedEngine alice = false ∧
      ({ ID := 99 } : Label).CanDelete sharedEngine alice = false) ∧
    (urgentLabel.CanUpdate brokenEngine alice = false ∧
      urgentLabel.CanDelete brokenEngine alice = false) ∧
    urgentLabel.CanRead brokenEngine alice = false :=
  ⟨(label_checks_fail_closed sharedEngine { ID := 99 } alice).1 (by decide),
    (label_checks_fail_closed brokenEngine urgentLabel alice).2.1
      (Error.engine "connection refused") rfl,
    (label_checks_fail_closed brokenEngine urgentLabel alice).2.2.1
      (Error.engine "connection refused") rfl⟩


/-- C5: label visibility is monotone.  When the tasks readable by the user grow
(every id returned before is still returned) and the attachments of labels to
tasks grow, a `CanRead` that was true stays true, and so do `CanUpdate` and
`CanDelete`. -/
theorem label_rights_monotone (x : Engine) (l : Label) (u : User)
    (tasks' : User → Except Error (List Int)) (attached' : List LabelTask)
    (htasks : ∀ ids, x.getUserTaskIDs u = .ok ids → ∃ ids', tasks' u = .ok ids' ∧ ids ⊆ ids')
    (hatt : x.label_task ⊆ attached') :
    (l.CanRead x u = true →
      l.CanRead { x with getUserTaskIDs := tasks', label_task := attached' } u = true) ∧
    (l.CanUpdate x u = true →
      l.CanUpdate { x with getUserTaskIDs := tasks', label_task := attached' } u = true) ∧
    (l.CanDelete x u = true →
      l.CanDelete { x with getUserTaskIDs := tasks', label_task := attached' } u = true) := by
  refine ⟨?_, fun h => h, fun h => h⟩
  intro hread
  rw [CanRead_eq_true_iff] at hread ⊢
  obtain ⟨ids, hids, hex, s, hs, hid, hacc⟩ := hread
  obtain ⟨ids', hids', hsub⟩ := htasks ids hids
  refine ⟨ids', hids', hex, s, hs, hid, ?_⟩
  rcases hacc with hown | ⟨lt, hlt, heq, hin⟩
  · exact Or.inl hown
  · exact Or.inr ⟨lt, hatt hlt, heq, hsub hin⟩

/-- Witness of C5: user 7 reads label 1 in the example store, and still does
after task 31 became readable and label 2 was attached to task 31. -/
theorem label_rights_monotone_witness :
    urgentLabel.CanRead exampleEngine alice = true ∧
    urgentLabel.CanRead
      { exampleEngine with
        getUserTaskIDs := fun _ => .ok [31],
        label_task := { ID := 2, TaskID := 31, LabelID := 2 } :: exampleEngine.label_task }
      alice = true :=
  ⟨by decide,
    (label_rights_monotone exampleEngine urgentLabel alice (fun _ => .ok [31])
      ({ ID := 2, TaskID := 31, LabelID := 2 } :: exampleEngine.label_task)
      (fun ids h => ⟨[31], rfl, by
        have : ids = [] := by
          have h' : (Except.ok [] : Except Error (List Int)) = .ok ids := h
          cases h'
          rfl
        rw [this]
        exact List.nil_subset _⟩)
      (List.subset_cons_self _ _)).1 (by decide)⟩

/-- Counterexample to C6 as stated: user 7 made label 1, label 1 is attached to
task 30, and user 7 can read no task, yet `CanRead` allows; and once task 30 is
readable by user 7, `CanUpdate` allows too. -/
theorem label_creator_reads_and_updates_regardless_of_tasks :
    urgentLabel ∈ exampleEngine.labels ∧ urgentLabel.CreatedByID = alice.ID ∧
    ({ ID := 1, TaskID := 30, LabelID := 1 } : LabelTask) ∈ exampleEngine.label_task ∧
    exampleEngine.getUserTaskIDs alice = .ok [] ∧
    urgentLabel.CanRead exampleEngine alice = true ∧
    sharedEngine.getUserTaskIDs alice = .ok [30] ∧
    urgentLabel.CanRead sharedEngine alice = true ∧
    urgentLabel.CanUpdate sharedEngine alice = true := by
  refine ⟨by decide, by decide, by decide, rfl, by decide, rfl, by decide, by decide⟩

/-- C6, amended: let label `L` be stored and attached to task `T`, and let the
user read none of the tasks `L` is attached to.  A user who did not create `L`
is denied `CanRead`; once `T` is readable by that user `CanRead` allows while
`CanUpdate` still denies.  The creator of `L` is allowed `CanRead` and
`CanUpdate` before and after. -/
theorem label_lateral_visibility (x : Engine) (L : Label) (A : User) (T : Int)
    (ids : List Int) (hpk : (x.labels.map (·.ID)).Nodup) (hL : L ∈ x.labels)
    (hget : x.labelGetErr = none) (hex : x.labelExistErr = none)
    (hattached : ∃ lt ∈ x.label_task, lt.LabelID = L.ID ∧ lt.TaskID = T)
    (htasks : x.getUserTaskIDs A = .ok ids)
    (hunread : ∀ lt ∈ x.label_task, lt.LabelID = L.ID → lt.TaskID ∉ ids) :
    (L.CreatedByID ≠ A.ID →
      L.CanRead x A = false ∧
      L.CanRead { x with getUserTaskIDs := fun _ => .ok (T :: ids) } A = true ∧
      L.CanUpdate { x with getUserTaskIDs := fun _ => .ok (T :: ids) } A = false) ∧
    (L.CreatedByID = A.ID →
      L.CanRead x A = true ∧ L.CanUpdate x A = true ∧
      L.CanRead { x with getUserTaskIDs := fun _ => .ok (T :: ids) } A = true ∧
      L.CanUpdate { x with getUserTaskIDs := fun _ => .ok (T :: ids) } A = true) := by
  have hfind : getLabelByIDSimple x L.ID = .ok L :=
    (getLabelByIDSimple_eq_ok_iff x L.ID L).mpr ⟨hget, find_label_of_mem x.labels L hpk hL⟩
  have hupd : L.CanUpdate x A = (L.CreatedByID == A.ID) := by
    simp only [Label.CanUpdate, Label.isLabelOwner, getUserForRights, hfind]
  have hupd' : L.CanUpdate { x with getUserTaskIDs := fun _ => .ok (T :: ids) } A =
      L.CanUpdate x A := rfl
  constructor
  · intro hne
    refine ⟨?_, ?_, ?_⟩
    · rw [← Bool.not_eq_true, label_CanRead_iff_lemma x L A ids hpk hL htasks hex]
      rintro (hown | ⟨lt, hlt, heq, hin⟩)
      · exact hne hown
      · exact hunread lt hlt heq hin
    · rw [label_CanRead_iff_lemma { x with getUserTaskIDs := fun _ => .ok (T :: ids) } L A
        (T :: ids) hpk hL rfl hex]
      obtain ⟨lt, hlt, heq, hT⟩ := hattached
      exact Or.inr ⟨lt, hlt, heq, by rw [hT]; exact List.mem_cons_self _ _⟩
    · rw [hupd', hupd]
      simpa using hne
  · intro hown
    refine ⟨?_, ?_, ?_, ?_⟩
    · rw [label_CanRead_iff_lemma x L A ids hpk hL htasks hex]
      exact Or.inl hown
    · rw [hupd]
      simpa using hown
    · rw [label_CanRead_iff_lemma { x with getUserTaskIDs := fun _ => .ok (T :: ids) } L A
        (T :: ids) hpk hL rfl hex]
      exact Or.inl hown
    · rw [hupd', hupd]
      simpa using hown

/-- Witness of C6, amended: user 8 did not make label 1 and reads no task. -/
theorem label_lateral_visibility_witness :
    (urgentLabel.CreatedByID ≠ bob.ID →
      urgentLabel.CanRead exampleEngine bob = false ∧
      urgentLabel.CanRead { exampleEngine with getUserTaskIDs := fun _ => .ok (30 :: []) }
        bob = true ∧
      urgentLabel.CanUpdate { exampleEngine with getUserTaskIDs := fun _ => .ok (30 :: []) }
        bob = false) ∧
    (urgentLabel.CreatedByID = bob.ID →
      urgentLabel.CanRead exampleEngine bob = true ∧
      urgentLabel.CanUpdate exampleEngine bob = true ∧
      urgentLabel.CanRead { exampleEngine with getUserTaskIDs := fun _ => .ok (30 :: []) }
        bob = true ∧
      urgentLabel.CanUpdate { exampleEngine with getUserTaskIDs := fun _ => .ok (30 :: []) }
        bob = true) :=
  label_lateral_visibility exampleEngine urgentLabel bob 30 [] (by decide) (by decide) rfl rfl
    ⟨{ ID := 1, TaskID := 30, LabelID := 1 }, by decide, rfl, rfl⟩ rfl
    (fun _ _ _ h => by cases h)

/-- C7: `CanCreate` of a label is true for every label, every user and every
store; it reads nothing and has no failing path. -/
theorem label_CanCreate_always (x : Engine) (l : Label) (a : User) :
    l.CanCreate x a = true :=
  rfl


/-- Counterexample to C19 as stated: on the joined row of label 1 and its
attachment to task 30 the column `label_task.label_id` is not null, and for
user 8 the condition `label_task.label_id != null OR labels.created_by_id = ?`
is `NULL`, not true; label 1 is attached to a task and `CanRead` denies user 8. -/
theorem label_attached_to_a_task_is_not_readable_by_all :
    (urgentLabel, some ({ ID := 1, TaskID := 30, LabelID := 1 } : LabelTask)) ∈
      labelsLeftJoinLabelTask exampleEngine ∧
    (sqlNeNull (some 1)).or (sqlEq (some urgentLabel.CreatedByID) bob.ID) = SQLBool.NULL ∧
    urgentLabel.CanRead exampleEngine bob = false := by
  refine ⟨by decide, by decide, by decide⟩

/-- C19, amended: in SQL `label_task.label_id != null` is `NULL` on every row,
so the condition `label_task.label_id != null OR labels.created_by_id = ?`
selects a joined row exactly when its label was made by the user, whether or
not the row has an attachment; and `CanRead` is true only when a stored label
of the id filtered for was made by the user or is attached to a task the user
can read. -/
theorem label_query_condition_is_not_always_true (x : Engine) (l : Label) (u : User) :
    (∀ (col : Option Int) (createdByID : Int),
      ((sqlNeNull col).or (sqlEq (some createdByID) u.ID)).selects = true ↔
        createdByID = u.ID) ∧
    (l.CanRead x u = true →
      ∃ s ∈ x.labels, s.ID = l.ID ∧
        (s.CreatedByID = u.ID ∨
          ∃ ids, x.getUserTaskIDs u = .ok ids ∧
            ∃ lt ∈ x.label_task, lt.LabelID = s.ID ∧ lt.TaskID ∈ ids)) := by
  constructor
  · intro col createdByID
    rw [or_selects_iff, sqlEq_selects_iff]
    simp [sqlNeNull, SQLBool.selects]
  · intro hread
    obtain ⟨ids, hids, _, s, hs, hid, hacc⟩ := (CanRead_eq_true_iff x l u).mp hread
    refine ⟨s, hs, hid, ?_⟩
    rcases hacc with hown | hatt
    · exact Or.inl hown
    · exact Or.inr ⟨ids, hids, hatt⟩

/-! ## Claims about `pkg/user/user.go` -/

/-- C8 (the code departs from the claim): on claims whose `id` is a number and
whose `email` is missing, or is not a string, `GetUserFromClaims` panics
instead of returning a user or an error; on claims whose `id` is not a
`float64` it returns `ErrCouldNotGetUserID`, as the claim says. -/
theorem GetUserFromClaims_panics_without_email :
    GetUserFromClaims claimsWithoutEmail =
      .panic "interface conversion: interface is not string" ∧
    GetUserFromClaims
        [("id", .float64 1), ("email", .float64 2), ("username", .string "u"),
          ("name", .string "n")] =
      .panic "interface conversion: interface is not string" ∧
    (∀ claims : MapClaims, (assertFloat64 (claims.index "id")).2 = false →
      GetUserFromClaims claims = .returned (none, some Error.ErrCouldNotGetUserID)) := by
  refine ⟨rfl, rfl, ?_⟩
  intro claims hid
  unfold GetUserFromClaims
  cases h : assertFloat64 (claims.index "id") with
  | mk f ok =>
    rw [h] at hid
    simp only at hid
    subst hid
    rfl

/-- Counterexample to C9 as stated: the login name `a@b.c` matches user 2 by
e-mail address, user 2 is not active, and the login still ends with user 1
authenticated, not with `ErrEmailNotConfirmed` for user 2. -/
theorem inactive_match_behind_active_match :
    ambiguousLogin.Username ≠ "" ∧ ambiguousLogin.Password ≠ "" ∧
    (∃ stored ∈ activeFirstEngine.users,
      (stored.Username = ambiguousLogin.Username ∨ stored.Email = ambiguousLogin.Username) ∧
        stored.IsActive = false ∧ stored.ID = 2) ∧
    CheckUserCredentials activeFirstEngine exampleCompare ambiguousLogin =
      (some { ID := 1, Username := "a@b.c", Email := "", Password := "hash:secret",
              IsActive := true },
        none) := by
  refine ⟨by decide, by decide, ?_, rfl⟩
  exact ⟨{ ID := 2, Username := "carol", Email := "a@b.c", Password := "hash:other",
           IsActive := false }, by decide, by decide, rfl, rfl⟩

/-- C9, amended: for a login with non-empty username and password, when the
user lookup runs and the row it returns (the first stored user whose username
or e-mail address equals the login name) has `IsActive = false`, the check
fails with `ErrEmailNotConfirmed` carrying that user's id, whatever the
password; and a user returned with a nil error is always active. -/
theorem CheckUserCredentials_inactive (x : Engine) (compare : CompareHashAndPassword)
    (login : Login) :
    (∀ stored, login.Username ≠ "" → login.Password ≠ "" → x.userGetErr = none →
      x.users.find? (matchesUsernameOrEmail login.Username) = some stored →
      stored.IsActive = false →
      CheckUserCredentials x compare login =
        (some {}, some (Error.ErrEmailNotConfirmed stored.ID))) ∧
    (∀ usr, CheckUserCredentials x compare login = (some usr, none) → usr.IsActive = true) := by
  constructor
  · intro stored hU hP herr hfind hinactive
    rw [CheckUserCredentials_of_nonempty x compare login hU hP]
    have hget : getUserByUsernameOrEmail x login.Username = .ok { stored with Email := "" } :=
      (getUserByUsernameOrEmail_eq_ok_iff x login.Username _).mpr ⟨herr, stored, hfind, rfl⟩
    rw [hget]
    simp [hinactive]
  · intro usr hok
    obtain ⟨_, _, _, stored, _, hact, _, husr⟩ :=
      (CheckUserCredentials_success_iff x compare login usr).mp hok
    rw [husr]
    exact hact

/-- Witness of C9, amended: user 5 is not active; a login as `erin` fails with
`ErrEmailNotConfirmed` for user 5 although the password is the right one. -/
theorem CheckUserCredentials_inactive_witness :
    CheckUserCredentials pendingUserEngine exampleCompare
        { Username := "erin", Password := "secret" } =
      (some {}, some (Error.ErrEmailNotConfirmed 5)) :=
  (CheckUserCredentials_inactive pendingUserEngine exampleCompare
      { Username := "erin", Password := "secret" }).1
    { ID := 5, Username := "erin", Email := "erin@example.org", Password := "hash:secret",
      IsActive := false }
    (by decide) (by decide) rfl rfl rfl

/-- Counterexample to C10 as stated: username and password are non-empty, the
stored user 2 has the login name as e-mail address, is active and has the
matching hash, and the login still fails: the lookup returns user 1, who has
the login name as username and is not active. -/
theorem active_match_behind_inactive_match :
    ambiguousLogin.Username ≠ "" ∧ ambiguousLogin.Password ≠ "" ∧
    (∃ stored ∈ inactiveFirstEngine.users,
      (stored.Username = ambiguousLogin.Username ∨ stored.Email = ambiguousLogin.Username) ∧
        stored.IsActive = true ∧
        exampleCompare stored.Password ambiguousLogin.Password = none) ∧
    CheckUserCredentials inactiveFirstEngine exampleCompare ambiguousLogin =
      (some {}, some (Error.ErrEmailNotConfirmed 1)) := by
  refine ⟨by decide, by decide, ?_, rfl⟩
  exact ⟨{ ID := 2, Username := "carol", Email := "a@b.c", Password := "hash:secret",
           IsActive := true }, by decide, by decide, rfl, rfl⟩

/-- C10, amended: `CheckUserCredentials` returns the user `usr` with a nil
error exactly when username and password of the login are both non-empty, the
user lookup runs, the row it returns (the first stored user whose username or
e-mail address equals the login name) is active and its stored hash matches
the password, and `usr` is that row with `Email` cleared; with an empty
username or password it fails with `ErrNoUsernamePassword` whatever the store
holds. -/
theorem CheckUserCredentials_success (x : Engine) (compare : CompareHashAndPassword)
    (login : Login) :
    (∀ usr, CheckUserCredentials x compare login = (some usr, none) ↔
      login.Username ≠ "" ∧ login.Password ≠ "" ∧ x.userGetErr = none ∧
        ∃ stored, x.users.find? (matchesUsernameOrEmail login.Username) = some stored ∧
          stored.IsActive = true ∧ compare stored.Password login.Password = none ∧
          usr = { stored with Email := "" }) ∧
    ((CheckUserCredentials x compare login).2 = none →
      ∃ usr, CheckUserCredentials x compare login = (some usr, none)) ∧
    (login.Username = "" ∨ login.Password = "" →
      ∀ x' : Engine,
        CheckUserCredentials x' compare login = (none, some Error.ErrNoUsernamePassword)) := by
  refine ⟨fun usr => CheckUserCredentials_success_iff x compare login usr, ?_, ?_⟩
  · intro hnil
    unfold CheckUserCredentials at hnil ⊢
    split at hnil
    · cases hnil
    · rename_i hne
      rw [if_neg hne]
      split at hnil
      · cases hnil
      · rename_i user hget
        split at hnil
        · cases hnil
        · rename_i hact
          rw [if_neg hact]
          split at hnil
          · cases hnil
          · rename_i hpw
            exact ⟨user, rfl⟩
  · intro hempty x'
    exact CheckUserCredentials_of_empty x' compare login hempty

/-- Witness of C10, amended: `dave` logs in with the right password and gets
user 4 back without the e-mail address; a login without a password is
refused before any lookup. -/
theorem CheckUserCredentials_success_witness :
    CheckUserCredentials oneUserEngine exampleCompare
        { Username := "dave", Password := "secret" } =
      (some { ID := 4, Username := "dave", Email := "", Password := "hash:secret",
              IsActive := true },
        none) ∧
    CheckUserCredentials brokenEngine exampleCompare { Username := "dave", Password := "" } =
      (none, some Error.ErrNoUsernamePassword) :=
  ⟨((CheckUserCredentials_success oneUserEngine exampleCompare
        { Username := "dave", Password := "secret" }).1 _).mpr
      ⟨by decide, by decide, rfl,
        { ID := 4, Username := "dave", Email := "dave@example.org", Password := "hash:secret",
          IsActive := true },
        rfl, rfl, rfl, rfl⟩,
    (CheckUserCredentials_success oneUserEngine exampleCompare
        { Username := "dave", Password := "" }).2.2 (Or.inr rfl) brokenEngine⟩

/-- Counterexample to C11 as stated: the same login fails in a store where
`erin` is a stored user not yet active and in the store without her, and the
two errors differ: `ErrEmailNotConfirmed` for user 5 against
`ErrWrongUsernameOrPassword`. -/
theorem inactive_user_error_differs_from_unknown_user :
    CheckUserCredentials pendingUserEngine exampleCompare
        { Username := "erin", Password := "wrong" } =
      (some {}, some (Error.ErrEmailNotConfirmed 5)) ∧
    CheckUserCredentials { pendingUserEngine with users := [] } exampleCompare
        { Username := "erin", Password := "wrong" } =
      (none, some Error.ErrWrongUsernameOrPassword) :=
  ⟨rfl, rfl⟩

/-- C11, amended: for a login with non-empty username and password the error
is `ErrWrongUsernameOrPassword` when no stored user matches the login name,
and it is the same error when the row the lookup returns is active and bcrypt
reports that hash and password do not match.  When the row the lookup returns
is not active the error is `ErrEmailNotConfirmed` with that user's id. -/
theorem CheckUserCredentials_failure_errors (x : Engine) (compare : CompareHashAndPassword)
    (login : Login) (hU : login.Username ≠ "") (hP : login.Password ≠ "") :
    ((∀ s ∈ x.users, matchesUsernameOrEmail login.Username s = false) →
      CheckUserCredentials x compare login = (none, some Error.ErrWrongUsernameOrPassword)) ∧
    (∀ stored, x.userGetErr = none →
      x.users.find? (matchesUsernameOrEmail login.Username) = some stored →
      stored.IsActive = true →
      compare stored.Password login.Password = some Error.ErrMismatchedHashAndPassword →
      CheckUserCredentials x compare login = (none, some Error.ErrWrongUsernameOrPassword)) ∧
    (∀ stored, x.userGetErr = none →
      x.users.find? (matchesUsernameOrEmail login.Username) = some stored →
      stored.IsActive = false →
      CheckUserCredentials x compare login =
        (some {}, some (Error.ErrEmailNotConfirmed stored.ID))) := by
  rw [CheckUserCredentials_of_nonempty x compare login hU hP]
  refine ⟨?_, ?_, ?_⟩
  · intro hnone
    cases hget : getUserByUsernameOrEmail x login.Username with
    | error e => rfl
    | ok user =>
      obtain ⟨_, stored, hfind, _⟩ :=
        (getUserByUsernameOrEmail_eq_ok_iff x login.Username user).mp hget
      have hmem := List.mem_of_find?_eq_some hfind
      have hmatch := List.find?_some hfind
      rw [hnone stored hmem] at hmatch
      cases hmatch
  · intro stored herr hfind hact hcmp
    have hget : getUserByUsernameOrEmail x login.Username = .ok { stored with Email := "" } :=
      (getUserByUsernameOrEmail_eq_ok_iff x login.Username _).mpr ⟨herr, stored, hfind, rfl⟩
    rw [hget]
    simp [hact, CheckUserPassword, hcmp]
  · intro stored herr hfind hinactive
    have hget : getUserByUsernameOrEmail x login.Username = .ok { stored with Email := "" } :=
      (getUserByUsernameOrEmail_eq_ok_iff x login.Username _).mpr ⟨herr, stored, hfind, rfl⟩
    rw [hget]
    simp [hinactive]

/-- Witness of C11, amended: a wrong password for the stored, active user
`dave` and a login under the unknown name `nobody` fail with the same error. -/
theorem CheckUserCredentials_failure_errors_witness :
    CheckUserCredentials oneUserEngine exampleCompare
        { Username := "dave", Password := "wrong" } =
      (none, some Error.ErrWrongUsernameOrPassword) ∧
    CheckUserCredentials oneUserEngine exampleCompare
        { Username := "nobody", Password := "wrong" } =
      (none, some Error.ErrWrongUsernameOrPassword) :=
  ⟨(CheckUserCredentials_failure_errors oneUserEngine exampleCompare
        { Username := "dave", Password := "wrong" } (by decide) (by decide)).2.1
      { ID := 4, Username := "dave", Email := "dave@example.org", Password := "hash:secret",
        IsActive := true }
      rfl rfl rfl rfl,
    (CheckUserCredentials_failure_errors oneUserEngine exampleCompare
        { Username := "nobody", Password := "wrong" } (by decide) (by decide)).1
      (by decide)⟩

/-- C12: user lookup fails closed.  For an id below 1 `GetUserByID` returns an
empty user and `ErrUserDoesNotExist` whatever the engine holds, and so does
`GetUserByUsername` for the empty name; for an id of at least 1 that no stored
user has, `GetUserByID` returns an empty user and `ErrUserDoesNotExist` with
that id when the query runs, and the error of the engine otherwise; a user it
returns without error is the stored user of that id. -/
theorem user_lookup_fails_closed (x : Engine) (id : Int) :
    (id < 1 → GetUserByID x id = .returned (some {}, some (Error.ErrUserDoesNotExist 0))) ∧
    GetUserByUsername x "" = .returned (some {}, some (Error.ErrUserDoesNotExist 0)) ∧
    (1 ≤ id → (∀ s ∈ x.users, s.ID ≠ id) →
      (x.userGetErr = none →
        GetUserByID x id = .returned (some {}, some (Error.ErrUserDoesNotExist id))) ∧
      (∀ e, x.userGetErr = some e → GetUserByID x id = .returned (none, some e))) ∧
    (∀ usr, GetUserByID x id = .returned (some usr, none) →
      usr.ID = id ∧ ∃ s ∈ x.users, s.ID = id ∧ usr = { s with Email := "" }) := by
  refine ⟨?_, ?_, ?_, ?_⟩
  · intro hlt
    simp [GetUserByID, hlt]
  · simp [GetUserByUsername]
  · intro hge habsent
    have hnot : ¬ id < 1 := by omega
    have hfind : x.users.find? (userBeanCond { ID := id }) = none := by
      rw [List.find?_eq_none]
      intro s hs hcond
      rw [userBeanCond_ID] at hcond
      have hne0 : id ≠ 0 := by omega
      simp [hne0] at hcond
      exact habsent s hs hcond
    constructor
    · intro herr
      simp [GetUserByID, hnot, GetUser, getUser_some, xGetUser, herr, hfind]
    · intro e herr
      simp [GetUserByID, hnot, GetUser, getUser_some, xGetUser, herr]
  · intro usr hret
    by_cases hlt : id < 1
    · simp [GetUserByID, hlt] at hret
    · simp only [GetUserByID, hlt, if_false, GetUser] at hret
      obtain ⟨row, _, hfind, husr⟩ := getUser_success x { ID := id } false usr hret
      have hmem := List.mem_of_find?_eq_some hfind
      have hcond := List.find?_some hfind
      rw [userBeanCond_ID] at hcond
      have hne0 : id ≠ 0 := by omega
      simp [hne0] at hcond
      simp only [Bool.false_eq_true, if_false] at husr
      exact ⟨by rw [husr]; exact hcond, row, hmem, hcond, husr⟩

/-- Witness of C12: user 99 is not stored, user 4 is the only stored user. -/
theorem user_lookup_fails_closed_witness :
    GetUserByID oneUserEngine 0 = .returned (some {}, some (Error.ErrUserDoesNotExist 0)) ∧
    GetUserByID oneUserEngine 99 = .returned (some {}, some (Error.ErrUserDoesNotExist 99)) :=
  ⟨(user_lookup_fails_closed oneUserEngine 0).1 (by decide),
    ((user_lookup_fails_closed oneUserEngine 99).2.2.1 (by decide) (by decide)).1 rfl⟩

/-- C13: e-mail obfuscation.  A user returned without error by `GetUser`,
`GetUserByID` or `GetUserByUsername`, and every user in the map of
`GetUsersByIDs`, has an empty `Email`; a user returned without error by
`GetUserWithEmail` is a stored row as it is stored, e-mail address included;
and whatever is asked for, the result of `GetUser` is the result of
`GetUserWithEmail` with the `Email` of the user cleared. -/
theorem user_email_obfuscated (x : Engine) :
    (∀ q usr, GetUser x q = .returned (some usr, none) → usr.Email = "") ∧
    (∀ id usr, GetUserByID x id = .returned (some usr, none) → usr.Email = "") ∧
    (∀ name usr, GetUserByUsername x name = .returned (some usr, none) → usr.Email = "") ∧
    (∀ ids, ∀ p ∈ (GetUsersByIDs x ids).1, p.2.Email = "") ∧
    (∀ q usr, GetUserWithEmail x q = .returned (some usr, none) →
      usr ∈ x.users ∧ ∃ bean, q = some bean ∧ x.users.find? (userBeanCond bean) = some usr) ∧
    (∀ q, GetUser x q = (GetUserWithEmail x q).map obfuscateEmail) := by
  have hget : ∀ q usr, GetUser x q = .returned (some usr, none) → usr.Email = "" := by
    intro q usr h
    cases q with
    | none => simp [GetUser, getUser] at h
    | some u =>
      obtain ⟨row, _, _, husr⟩ := getUser_success x u false usr h
      rw [husr]
      rfl
  refine ⟨hget, ?_, ?_, ?_, ?_, ?_⟩
  · intro id usr h
    by_cases hlt : id < 1
    · simp [GetUserByID, hlt] at h
    · simp only [GetUserByID, hlt, if_false] at h
      exact hget _ usr h
  · intro name usr h
    by_cases hempty : name = ""
    · simp [GetUserByUsername, hempty] at h
    · have hne : (name == "") = false := by simpa using hempty
      simp only [GetUserByUsername, hne, Bool.false_eq_true, if_false] at h
      exact hget _ usr h
  · intro ids p hp
    unfold GetUsersByIDs at hp
    cases herr : x.userFindErr with
    | some e =>
      rw [herr] at hp
      simp at hp
    | none =>
      rw [herr] at hp
      simp only [List.mem_map] at hp
      obtain ⟨u, _, rfl⟩ := hp
      rfl
  · intro q usr h
    cases q with
    | none => simp [GetUserWithEmail, getUser] at h
    | some u =>
      obtain ⟨row, _, hfind, husr⟩ := getUser_success x u true usr h
      simp only [if_true] at husr
      subst husr
      exact ⟨List.mem_of_find?_eq_some hfind, u, rfl, hfind⟩
  · intro q
    cases q with
    | none => rfl
    | some u =>
      simp only [GetUser, GetUserWithEmail, getUser_some, Outcome.map]
      cases xGetUser x u with
      | error e => rfl
      | ok r =>
        cases r with
        | none => rfl
        | some row => rfl

/-- C20 (the code departs from the claim): for a nil user `getUser` panics,
with either value of `withEmail` and whatever the engine holds: the copy
`*userOut = *user` dereferences the nil pointer. -/
theorem getUser_panics_on_nil (x : Engine) (withEmail : Bool) :
    getUser x none withEmail = .panic nilDereference :=
  rfl

/-- Counterexample to C14 as stated: the username `dave` belongs to the stored
user 4, and an update of user 99 under the username `dave` fails with
`ErrUserDoesNotExist` for 99, not with `ErrUsernameExists`. -/
theorem UpdateUser_of_unknown_user_reports_no_username_clash :
    (∃ s ∈ oneUserEngine.users, s.Username = "dave" ∧ s.ID ≠ 99) ∧
    (UpdateUser oneUserEngine { ID := 99, Username := "dave" }).2 =
      .returned (some {}, some (Error.ErrUserDoesNotExist 99)) := by
  refine ⟨?_, rfl⟩
  exact ⟨{ ID := 4, Username := "dave", Email := "dave@example.org", Password := "hash:secret",
           IsActive := true }, by decide, rfl, by decide⟩

/-- C14, amended: on a table `users` with pairwise distinct non-zero ids and
pairwise distinct usernames, the usernames are pairwise distinct after
`UpdateUser`, whatever it returns; when the lookups run and the user to update
is stored, `UpdateUser` fails with `ErrUsernameExists` exactly when the
supplied username is not empty and belongs to a stored user of another id; and
with an empty supplied username every stored username is what it was. -/
theorem UpdateUser_usernames (x : Engine) (user : User)
    (hpk : (x.users.map (·.ID)).Nodup) (hid0 : ∀ u ∈ x.users, u.ID ≠ 0)
    (huniq : (x.users.map (·.Username)).Nodup) :
    ((UpdateUser x user).1.users.map (·.Username)).Nodup ∧
    (x.userGetErr = none → (∃ t ∈ x.users, t.ID = user.ID) →
      ((∃ uid, (UpdateUser x user).2 =
            .returned (none, some (Error.ErrUsernameExists uid user.Username))) ↔
        (user.Username ≠ "" ∧
          ∃ s ∈ x.users, s.Username = user.Username ∧ s.ID ≠ user.ID))) ∧
    (user.Username = "" →
      (UpdateUser x user).1.users.map (·.Username) = x.users.map (·.Username)) := by
  refine ⟨?_, ?_, ?_⟩
  · rcases UpdateUser_engine_detail x user hpk hid0 huniq with h | ⟨u, h, hcase⟩
    · rw [h]
      exact huniq
    · rw [xUpdateUserCols_usernames x _ user.ID u h]
      rcases hcase with ⟨_, hsame⟩ | ⟨_, hholder⟩
      · rw [usernames_same_after x.users user.ID u.Username hsame]
        exact huniq
      · exact usernames_nodup_after x.users user.ID u.Username hpk huniq hholder
  · intro herr hstored
    obtain ⟨t, ht, htid⟩ := hstored
    have hne0 : user.ID ≠ 0 := by
      rw [← htid]
      exact hid0 t ht
    have hfind : x.users.find? (userBeanCond { ID := user.ID }) = some t := by
      apply find_eq_some_of_unique _ _ _ ht
      · rw [userBeanCond_ID]
        simp [htid]
      · intro b hb hcond
        rw [userBeanCond_ID] at hcond
        simp [hne0] at hcond
        exact List.inj_on_of_nodup_map hpk hb ht (hcond.trans htid.symm)
    unfold UpdateUser
    simp only [GetUserWithEmail, getUser_some, xGetUser, herr, hfind, if_true]
    by_cases hname : user.Username = ""
    · rw [checkUsername_empty x user t hname]
      simp only
      constructor
      · rintro ⟨uid, h⟩
        exact absurd h (UpdateUser_finish_error x _ t uid user.Username herr)
      · rintro ⟨hne, _⟩
        exact absurd hname hne
    · rw [checkUsername_supplied x user t hname herr]
      cases hfind2 : x.users.find? (userBeanCond { Username := user.Username }) with
      | none =>
        simp only
        constructor
        · rintro ⟨uid, h⟩
          exact absurd h (UpdateUser_finish_error x _ t uid user.Username herr)
        · rintro ⟨_, s, hs, hsname, _⟩
          rw [List.find?_eq_none] at hfind2
          have := hfind2 s hs
          rw [userBeanCond_Username] at this
          simp [hsname] at this
      | some row =>
        simp only
        have hrow : row ∈ x.users := List.mem_of_find?_eq_some hfind2
        have hrname : row.Username = user.Username := by
          have hcond := List.find?_some hfind2
          rw [userBeanCond_Username] at hcond
          simpa [hname] using hcond
        by_cases hother : (row.ID != 0 && row.ID != user.ID) = true
        · rw [if_pos hother]
          simp only
          constructor
          · intro _
            refine ⟨hname, row, hrow, hrname, ?_⟩
            simp at hother
            exact hother.2
          · intro _
            exact ⟨row.ID, rfl⟩
        · rw [if_neg hother]
          simp only
          have hrid : row.ID = user.ID := by
            have h0 := hid0 row hrow
            simp [h0] at hother
            exact hother
          constructor
          · rintro ⟨uid, h⟩
            exact absurd h (UpdateUser_finish_error x _ t uid user.Username herr)
          · rintro ⟨_, s, hs, hsname, hsid⟩
            have hsr : s = row :=
              List.inj_on_of_nodup_map huniq hs hrow (hsname.trans hrname.symm)
            rw [hsr] at hsid
            exact absurd hrid hsid
  · intro hname
    rcases UpdateUser_engine_detail x user hpk hid0 huniq with h | ⟨u, h, hcase⟩
    · rw [h]
    · rw [xUpdateUserCols_usernames x _ user.ID u h]
      rcases hcase with ⟨_, hsame⟩ | ⟨hne, _⟩
      · exact usernames_same_after x.users user.ID u.Username hsame
      · exact absurd hname hne

/-- Witness of C14, amended: in the store of users 1 (`a@b.c`) and 2 (`carol`),
an update of user 2 under the username `a@b.c` fails with `ErrUsernameExists`
for user 1, and the usernames stay pairwise distinct. -/
theorem UpdateUser_usernames_witness :
    ((UpdateUser activeFirstEngine { ID := 2, Username := "a@b.c" }).1.users.map
        (·.Username)).Nodup ∧
    (∃ uid, (UpdateUser activeFirstEngine { ID := 2, Username := "a@b.c" }).2 =
      .returned (none, some (Error.ErrUsernameExists uid "a@b.c"))) :=
  ⟨(UpdateUser_usernames activeFirstEngine { ID := 2, Username := "a@b.c" }
      (by decide) (by decide) (by decide)).1,
    ((UpdateUser_usernames activeFirstEngine { ID := 2, Username := "a@b.c" }
      (by decide) (by decide) (by decide)).2.1 rfl
        ⟨{ ID := 2, Username := "carol", Email := "a@b.c", Password := "hash:other",
           IsActive := false }, by decide, rfl⟩).mpr
      ⟨by decide,
        { ID := 1, Username := "a@b.c", Email := "x@y.z", Password := "hash:secret",
          IsActive := true }, by decide, rfl, by decide⟩⟩

/-- C15: `UpdateUser` never changes a password.  After `UpdateUser` of
`pkg/user` the keys and password hashes of table `users` are what they were
before, for every input user and every engine; and so they are after
`UpdateUser` of `pkg/models`, which writes the stored hash back (ids of table
`users` pairwise distinct). -/
theorem UpdateUser_keeps_passwords (x : Engine) (user : User) :
    ((UpdateUser x user).1.users.map fun u => (u.ID, u.Password)) =
      x.users.map (fun u => (u.ID, u.Password)) ∧
    ((x.users.map (·.ID)).Nodup →
      ((models.UpdateUser x user).1.users.map fun u => (u.ID, u.Password)) =
        x.users.map (fun u => (u.ID, u.Password))) := by
  constructor
  · rcases UpdateUser_engine x user with h | ⟨id, u, h⟩
    · rw [h]
    · exact xUpdateUserCols_passwords x _ id u h
  · intro hpk
    rcases models_UpdateUser_engine x user with h | ⟨theUser, u, hmem, hid, hpw, h⟩
    · rw [h]
    · unfold xUpdateUserNonZero at h
      cases herr : x.userUpdateErr with
      | some e =>
        rw [herr] at h
        cases h
      | none =>
        rw [herr] at h
        simp only [Except.ok.injEq] at h
        rw [← h]
        simp only [List.map_map]
        apply List.map_congr_left
        intro row hrow
        by_cases hrid : row.ID = user.ID
        · have hsame : row = theUser := by
            apply List.inj_on_of_nodup_map hpk hrow hmem
            rw [hid]
            exact hrid
          subst hsame
          by_cases hempty : u.Password = ""
          · simp [hrid, hempty]
          · simp [hrid, hempty, hpw]
        · simp [hrid]

/-- Witness of C15: user 2 is updated with another username and the password
`evil`; the stored hashes stay `hash:secret` and `hash:other`. -/
theorem UpdateUser_keeps_passwords_witness :
    ((UpdateUser activeFirstEngine { ID := 2, Username := "zed", Password := "evil" }).1.users.map
        fun u => (u.ID, u.Password)) = [(1, "hash:secret"), (2, "hash:other")] ∧
    ((models.UpdateUser activeFirstEngine
          { ID := 2, Username := "zed", Password := "evil" }).1.users.map
        fun u => (u.ID, u.Password)) = [(1, "hash:secret"), (2, "hash:other")] :=
  ⟨(UpdateUser_keeps_passwords activeFirstEngine
      { ID := 2, Username := "zed", Password := "evil" }).1,
    (UpdateUser_keeps_passwords activeFirstEngine
      { ID := 2, Username := "zed", Password := "evil" }).2 (by decide)⟩

/-! ## Claims about `pkg/models/user_add_update.go` -/

/-- Counterexample to C16 as stated: the stored user 4 has the e-mail address
`dave@example.org`, and a registration with that address under the username
`dave`, which user 4 has too, fails with `ErrUsernameExists`, not with
`ErrUserEmailExists`. -/
theorem CreateUser_reports_the_username_before_the_email :
    (∃ s ∈ oneUserEngine.users, s.Email = "dave@example.org") ∧
    models.CreateUser oneUserEngine
        { Username := "dave", Password := "pw", Email := "dave@example.org" } =
      (oneUserEngine, {}, some (Error.ErrUsernameExists 0 "dave")) := by
  refine ⟨?_, rfl⟩
  exact ⟨{ ID := 4, Username := "dave", Email := "dave@example.org", Password := "hash:secret",
           IsActive := true }, by decide, rfl⟩

/-- C16, amended: `models.CreateUser` rejects in this order, the lookups
running.  With an empty `Username` or `Password` it fails with
`ErrNoUsernamePassword`; otherwise, when a stored user has the username, with
`ErrUsernameExists`; otherwise, when the e-mail address is not empty and a
stored user has it, with `ErrUserEmailExists` carrying id and address of a
stored user with that address.  In each case the returned user is the zero
`User` and the engine is what it was: nothing is inserted. -/
theorem CreateUser_rejections (x : Engine) (user : User) :
    ((user.Username = "" ∨ user.Password = "") →
      models.CreateUser x user = (x, {}, some Error.ErrNoUsernamePassword)) ∧
    (user.Username ≠ "" → user.Password ≠ "" → x.userGetErr = none →
      (∃ s ∈ x.users, s.Username = user.Username) →
      models.CreateUser x user =
        (x, {}, some (Error.ErrUsernameExists user.ID user.Username))) ∧
    (user.Username ≠ "" → user.Password ≠ "" → x.userGetErr = none →
      (∀ s ∈ x.users, s.Username ≠ user.Username) → user.Email ≠ "" →
      (∃ s ∈ x.users, s.Email = user.Email) →
      ∃ existing ∈ x.users, existing.Email = user.Email ∧
        models.CreateUser x user =
          (x, {}, some (Error.ErrUserEmailExists existing.ID existing.Email))) := by
  refine ⟨?_, ?_, ?_⟩
  · intro hempty
    have h : (user.Password == "" || user.Username == "") = true := by
      rcases hempty with h | h <;> simp [h]
    simp [models.CreateUser, h]
  · intro hU hP herr hstored
    obtain ⟨s, hs, hsname⟩ := hstored
    have h : (user.Password == "" || user.Username == "") = false := by
      simp [hU, hP]
    obtain ⟨row, hfind⟩ := find_isSome_of_mem (userBeanCond { Username := user.Username })
      x.users s hs (by rw [userBeanCond_Username]; simp [hsname])
    simp [models.CreateUser, h, CreateUser_lookup_found x _ row herr hfind]
  · intro hU hP herr hfresh hE hstored
    obtain ⟨s, hs, hsmail⟩ := hstored
    have h : (user.Password == "" || user.Username == "") = false := by
      simp [hU, hP]
    have hnone : x.users.find? (userBeanCond { Username := user.Username }) = none := by
      rw [List.find?_eq_none]
      intro r hr hcond
      rw [userBeanCond_Username] at hcond
      simp [hU] at hcond
      exact hfresh r hr hcond
    obtain ⟨row, hfind⟩ := find_isSome_of_mem (userBeanCond { Email := user.Email })
      x.users s hs (by rw [userBeanCond_Email]; simp [hsmail])
    have hrow : row ∈ x.users := List.mem_of_find?_eq_some hfind
    have hrmail : row.Email = user.Email := by
      have hcond := List.find?_some hfind
      rw [userBeanCond_Email] at hcond
      simpa [hE] using hcond
    refine ⟨row, hrow, hrmail, ?_⟩
    simp [models.CreateUser, h, CreateUser_lookup_absent x _ herr hnone,
      CreateUser_lookup_found x _ row herr hfind]

/-- Witness of C16, amended: a registration as `fred` with the e-mail address
of the stored user 4 is refused with `ErrUserEmailExists` for user 4. -/
theorem CreateUser_rejections_witness :
    ∃ existing ∈ oneUserEngine.users, existing.Email = "dave@example.org" ∧
      models.CreateUser oneUserEngine
          { Username := "fred", Password := "pw", Email := "dave@example.org" } =
        (oneUserEngine, {}, some (Error.ErrUserEmailExists existing.ID existing.Email)) :=
  (CreateUser_rejections oneUserEngine
      { Username := "fred", Password := "pw", Email := "dave@example.org" }).2.2
    (by decide) (by decide) rfl (by decide) (by decide)
    ⟨{ ID := 4, Username := "dave", Email := "dave@example.org", Password := "hash:secret",
       IsActive := true }, by decide, rfl⟩

/-! ## Claims about `pkg/models/task_comments.go` -/

/-- C17: reading the comments of a task requires read access to the task.
When `CanRead` returns false without error, `ReadAll` returns
`ErrGenericForbidden` with a nil result and both counts 0, whatever table
`task_comments` holds and whatever the comment queries would report; when
`CanRead` returns an error `ReadAll` returns that error; and when `ReadAll`
returns comments without error each of them has the `TaskID` asked for and
`resultCount` is their number. -/
theorem ReadAll_requires_read (x : Engine) (tc : TaskComment) (auth : User) (search : String)
    (page perPage : Int) :
    (x.TaskCommentCanRead tc auth = (false, none) →
      ∀ (comments : List TaskComment) (e1 e2 e3 : Option Error),
        TaskComment.ReadAll
            { x with
              task_comments := comments, commentFindErr := e1, authorFindErr := e2,
              commentCountErr := e3 }
            tc auth search page perPage =
          (none, 0, 0, some Error.ErrGenericForbidden)) ∧
    (∀ b err, x.TaskCommentCanRead tc auth = (b, some err) →
      TaskComment.ReadAll x tc auth search page perPage = (none, 0, 0, some err)) ∧
    (∀ result resultCount numberOfTotalItems,
      TaskComment.ReadAll x tc auth search page perPage =
        (some result, resultCount, numberOfTotalItems, none) →
      x.TaskCommentCanRead tc auth = (true, none) ∧
        (∀ c ∈ result, c.TaskID = tc.TaskID) ∧ resultCount = result.length) := by
  refine ⟨?_, ?_, ?_⟩
  · intro hcan comments e1 e2 e3
    unfold TaskComment.ReadAll
    simp only [hcan]
  · intro b err hcan
    unfold TaskComment.ReadAll
    simp only [hcan]
  · intro result resultCount numberOfTotalItems h
    unfold TaskComment.ReadAll at h
    split at h
    · simp at h
    · simp at h
    · rename_i hcan
      split at h
      · simp at h
      · rename_i comments hfind
        split at h
        · simp at h
        · simp only [Prod.mk.injEq, Option.some.injEq] at h
          obtain ⟨hres, hcount, _, _⟩ := h
          refine ⟨hcan, ?_, ?_⟩
          · intro c hc
            rw [← hres] at hc
            obtain ⟨c0, hc0, rfl⟩ := List.mem_map.mp hc
            exact xFindTaskComments_TaskID x tc.TaskID search page perPage comments hfind c0 hc0
          · rw [← hres, ← hcount]

/-- Witness of C17: nobody may read the comments of task 31, and a read of
them is refused although table `task_comments` has one. -/
theorem ReadAll_requires_read_witness :
    TaskComment.ReadAll commentEngine { TaskID := 31 } alice "" 0 0 =
      (none, 0, 0, some Error.ErrGenericForbidden) :=
  (ReadAll_requires_read commentEngine { TaskID := 31 } alice "" 0 0).1 rfl
    commentEngine.task_comments none none none

/-- C18: `Create` attaches comments to existing tasks only and to the acting
principal always.  When the task lookup returns an error, `Create` returns
that error and the engine is what it was, and the lookup returns an error when
no task of the id is stored; when `Create` returns no error a task of the id
is stored and exactly one row was appended to `task_comments`, with the id of
the principal as `AuthorID` whatever the caller supplied; in every case a row
that was not there before has the id of the principal as `AuthorID`. -/
theorem Create_attaches_to_task_and_principal (x : Engine) (tc : TaskComment) (a : User) :
    (∀ err, GetTaskSimple x { ID := tc.TaskID } = .error err →
      TaskComment.Create x tc a = (x, tc, some err)) ∧
    ((∀ t ∈ x.tasks, t.ID ≠ tc.TaskID) →
      ∃ err, GetTaskSimple x { ID := tc.TaskID } = .error err) ∧
    (∀ x' tc', TaskComment.Create x tc a = (x', tc', none) →
      (∃ t ∈ x.tasks, t.ID = tc.TaskID) ∧ tc'.AuthorID = a.GetID ∧
        ∃ row, x'.task_comments = x.task_comments ++ [row] ∧ row.AuthorID = a.GetID ∧
          row.TaskID = tc.TaskID ∧ row.Comment = tc.Comment) ∧
    (∀ c ∈ (TaskComment.Create x tc a).1.task_comments,
      c ∈ x.task_comments ∨ c.AuthorID = a.GetID) := by
  refine ⟨?_, ?_, ?_, ?_⟩
  · intro err herr
    unfold TaskComment.Create
    rw [herr]
  · intro habsent
    cases hget : GetTaskSimple x { ID := tc.TaskID } with
    | error err => exact ⟨err, rfl⟩
    | ok task =>
      obtain ⟨hmem, hid⟩ := GetTaskSimple_ok x _ task hget
      exact absurd hid (habsent task hmem)
  · intro x' tc' h
    unfold TaskComment.Create at h
    split at h
    · simp at h
    · rename_i task hget
      obtain ⟨hmem, hid⟩ := GetTaskSimple_ok x _ task hget
      dsimp only at h
      split at h
      · simp at h
      · rename_i x1 tc1 hins
        simp only [Prod.mk.injEq, and_true] at h
        obtain ⟨hx, htc⟩ := h
        subst hx htc
        obtain ⟨hauthor, row, hrows, hrow⟩ := xInsertTaskComment_ok x _ _ _ hins
        exact ⟨⟨task, hmem, hid⟩, hauthor, row, hrows, hrow⟩
  · intro c hc
    unfold TaskComment.Create at hc
    split at hc
    · exact Or.inl hc
    · dsimp only at hc
      split at hc
      · exact Or.inl hc
      · rename_i x1 tc1 hins
        obtain ⟨_, row, hrows, hrow, _⟩ := xInsertTaskComment_ok x _ _ _ hins
        simp only at hc
        rw [hrows, List.mem_append, List.mem_singleton] at hc
        rcases hc with hc | hc
        · exact Or.inl hc
        · right
          rw [hc]
          exact hrow

/-- Witness of C18: no task 77 is stored; user 7 comments on task 30 with
`AuthorID` 8 supplied, and the stored comment has `AuthorID` 7. -/
theorem Create_attaches_to_task_and_principal_witness :
    TaskComment.Create commentEngine { TaskID := 77, Comment := "hi", AuthorID := 8 } alice =
      (commentEngine, { TaskID := 77, Comment := "hi", AuthorID := 8 },
        some (Error.ErrTaskDoesNotExist 77)) ∧
    ((∃ t ∈ commentEngine.tasks, t.ID = 30) ∧
      (TaskComment.Create commentEngine
        { TaskID := 30, Comment := "hi", AuthorID := 8 } alice).2.1.AuthorID = 7 ∧
      ∃ row,
        (TaskComment.Create commentEngine
            { TaskID := 30, Comment := "hi", AuthorID := 8 } alice).1.task_comments =
          commentEngine.task_comments ++ [row] ∧
        row.AuthorID = 7 ∧ row.TaskID = 30 ∧ row.Comment = "hi") :=
  ⟨(Create_attaches_to_task_and_principal commentEngine
      { TaskID := 77, Comment := "hi", AuthorID := 8 } alice).1 _ rfl,
    (Create_attaches_to_task_and_principal commentEngine
      { TaskID := 30, Comment := "hi", AuthorID := 8 } alice).2.2.1 _ _ rfl⟩

/-! ## Claims about `pkg/modules/migration/ticktick/ticktick.go` -/

/-- C21: `convertTickTickToVikunja` partitions its input.  In whatever order
`range` walks the map, the result is one parent project titled
`Migrated from TickTick`, with no tasks of its own; the titles of its child
projects are in strictly ascending order, pairwise distinct, and exactly the
`ProjectName` values of the input; each child project holds exactly the
converted input tasks of that `ProjectName`, in input order, and has no child
projects; and the child projects hold as many tasks as the input has. -/
theorem convertTickTickToVikunja_partitions
    (rangeOrder : List ProjectWithTasksAndBuckets → List ProjectWithTasksAndBuckets)
    (hrange : ∀ l, (rangeOrder l).Perm l) (tasks : List tickTickTask) :
    ∃ parent, convertTickTickToVikunja rangeOrder tasks = [parent] ∧
      parent.Project.Title = "Migrated from TickTick" ∧ parent.Tasks = [] ∧
      (parent.ChildProjects.map (·.Project.Title)).Pairwise
        (fun a b => stringLess a b = true) ∧
      (parent.ChildProjects.map (·.Project.Title)).Nodup ∧
      (∀ name, name ∈ parent.ChildProjects.map (·.Project.Title) ↔
        ∃ t ∈ tasks, t.ProjectName = name) ∧
      (∀ p ∈ parent.ChildProjects,
        p.Tasks = (tasks.filter fun t => t.ProjectName == p.Project.Title).map convertTask ∧
          p.ChildProjects = []) ∧
      (parent.ChildProjects.map (·.Tasks.length)).sum = tasks.length := by
  obtain ⟨hnodup, hnames, htasks, hcount⟩ := ProjectsOf_foldl tasks
  have hr := hrange (tasks.foldl addToProjects [])
  have hnodupr : ((rangeOrder (tasks.foldl addToProjects [])).map (·.Project.Title)).Nodup :=
    (List.Perm.nodup_iff (hr.map _)).mpr hnodup
  obtain ⟨hperm, hsorted⟩ := sortByTitle_sorted _ hnodupr
  have hall := hperm.trans hr
  refine ⟨_, rfl, rfl, rfl, hsorted, ?_, ?_, ?_, ?_⟩
  · exact (List.Perm.nodup_iff (hall.map _)).mpr hnodup
  · intro name
    rw [← hnames name]
    exact (hall.map _).mem_iff
  · intro p hp
    exact htasks p (hall.mem_iff.mp hp)
  · rw [← hcount]
    exact (hall.map _).sum_eq

/-- Witness of C21: three tasks of the lists `work`, `home`, `work`, the map
walked from its last entry. -/
theorem convertTickTickToVikunja_partitions_witness :
    (∃ parent, convertTickTickToVikunja List.reverse exampleTickTickTasks = [parent] ∧
      parent.Project.Title = "Migrated from TickTick" ∧ parent.Tasks = [] ∧
      (parent.ChildProjects.map (·.Project.Title)).Pairwise
        (fun a b => stringLess a b = true) ∧
      (parent.ChildProjects.map (·.Project.Title)).Nodup ∧
      (∀ name, name ∈ parent.ChildProjects.map (·.Project.Title) ↔
        ∃ t ∈ exampleTickTickTasks, t.ProjectName = name) ∧
      (∀ p ∈ parent.ChildProjects,
        p.Tasks = (exampleTickTickTasks.filter fun t =>
            t.ProjectName == p.Project.Title).map convertTask ∧
          p.ChildProjects = []) ∧
      (parent.ChildProjects.map (·.Tasks.length)).sum = exampleTickTickTasks.length) ∧
    (convertTickTickToVikunja List.reverse exampleTickTickTasks).map
        (fun parent => parent.ChildProjects.map
          fun p => (p.Project.Title, p.Tasks.map fun task => task.Task.Title)) =
      [[("home", ["dishes"]), ("work", ["report", "mail"])]] :=
  ⟨convertTickTickToVikunja_partitions List.reverse (fun l => List.reverse_perm l)
    exampleTickTickTasks, by decide⟩

/-- C22 (the code departs from the claim): for a row whose column `Tags` is the
empty string the converted task has one label, with the empty title, not
none: `strings.Split` of the empty string is one empty part.  For a row whose
column `Tags` is at least one tag, joined by `", "` and none with `", "`
inside, the converted task has one label per tag, titled by the tags in order,
as the claim says. -/
theorem empty_Tags_column_gives_one_empty_label :
    (∀ (env : MigrationEnv) (t : tickTickTask), t.TagsList = "" →
      (convertTask (Migrate.prepare env t)).Task.Labels = [{ Title := "" }]) ∧
    ((convertTickTickToVikunja List.reverse
        ([{ ProjectName := "work", Title := "mail", TagsList := "" }].map
          (Migrate.prepare exampleMigrationEnv))).map
        (fun parent => parent.ChildProjects.map
          fun p => p.Tasks.map fun task => task.Task.Labels.map (·.Title))) =
      [[[[""]]]] ∧
    (∀ (env : MigrationEnv) (t : tickTickTask) (tags : List String), tags ≠ [] →
      (∀ tag ∈ tags, occursIn ", ".data tag.data = false) →
      t.TagsList.data = joinChars ", ".data (tags.map String.data) →
      (convertTask (Migrate.prepare env t)).Task.Labels =
        tags.map fun tag => ({ Title := tag } : Label)) := by
  refine ⟨?_, rfl, ?_⟩
  · intro env t hempty
    rw [convertTask_Labels, prepare_Tags, hempty]
    rfl
  · intro env t tags hne hno hjoined
    rw [convertTask_Labels, prepare_Tags]
    have hsplit : stringsSplit t.TagsList ", " = tags := by
      have hsep : ", ".data = [',', ' '] := rfl
      unfold stringsSplit
      rw [hjoined, hsep]
      simp only [List.isEmpty_cons, Bool.false_eq_true, if_false]
      rw [splitAux_joinChars (tags.map String.data) (by simpa using hne)
        (by
          intro tag htag
          obtain ⟨s, hs, rfl⟩ := List.mem_map.mp htag
          have := hno s hs
          rw [hsep] at this
          exact this)]
      rw [List.map_map]
      conv_rhs => rw [← List.map_id tags]
      apply List.map_congr_left
      intro s _
      rfl
    rw [hsplit]

end Vikunja
